import Mathlib

/-!
# CommitCast backend: commitment / wagering core, shallow embedding

Embedding of the commitment-resolution and wagering-pool settlement engine of
the CommitCast backend (src/commitcast-backend/app/main.py, models.py and
ai_client.py).  SQLAlchemy tables become Lean lists of records; the mutable
session becomes explicit state passing; every `HTTPException` raise site
becomes an `Except.error` carrying the status code and detail message copied
from the source.  Python float arithmetic in the settlement share computation
and in the heuristic probability is idealised as exact rational arithmetic
(`ℚ`), with Python's `int()` truncation made explicit.
-/

/-- HTTP-style error, as raised by the endpoints: status code and detail
message copied verbatim from the `HTTPException` sites in `main.py`. -/
structure Err where
  status : Nat
  detail : String
deriving DecidableEq

/-- A row of the `commitments` table (models.py, class `Commitment`).
Fields not touched by the wagering/lifecycle core (prediction fields,
timestamps other than `completedAt`) are omitted. -/
structure Commitment where
  id : Nat
  publicId : String
  ownerId : Nat
  title : String
  description : Option String
  category : String
  deadline : Int
  visibility : String
  status : String
  completionReport : Option String
  evidenceUrl : Option String
  completedAt : Option Int
deriving DecidableEq

/-- A row of the `bets` table (models.py, class `Bet`). -/
structure Bet where
  id : Nat
  commitmentId : Nat
  bettorId : Nat
  direction : String
  amount : Int
  resolved : Bool
  payout : Option Int
deriving DecidableEq

/-- A row of the `commitment_context_messages` / `coaching_messages` tables. -/
structure Msg where
  commitmentId : Nat
  role : String
  content : String
deriving DecidableEq

/-- The database state: the tables the wagering core touches.  `balances` is
the `user_balances` table as an association list (user id, balance);
`nextBetId` models the autoincrementing primary key of `bets`. -/
structure St where
  commitments : List Commitment
  bets : List Bet
  balances : List (Nat × Int)
  contextMessages : List Msg
  coachingMessages : List Msg
  nextBetId : Nat
deriving DecidableEq

/-- `db.query(Commitment).filter(Commitment.id == cid).first()`. -/
def lookupCommitment (st : St) (cid : Nat) : Option Commitment :=
  st.commitments.find? (fun c => c.id == cid)

/-- `db.query(UserBalance).filter(UserBalance.user_id == u).first()`,
projected to the balance column. -/
def lookupBalance (bal : List (Nat × Int)) (u : Nat) : Option Int :=
  (bal.find? (fun p => p.1 == u)).map Prod.snd

/-- `balance.balance += amt` on the row returned by `.first()`: add `amt` to
the first record with key `u`; if no record exists, do nothing (this mirrors
the `if balance:` guards in `resolve_bets` and `delete_bet`). -/
def creditFirst : List (Nat × Int) → Nat → Int → List (Nat × Int)
  | [], _, _ => []
  | p :: rest, u, amt =>
    if p.1 = u then (p.1, p.2 + amt) :: rest else p :: creditFirst rest u amt

/-- Python's `int()` applied to a real value: truncation toward zero. -/
def pyInt (q : ℚ) : Int := if q < 0 then ⌈q⌉ else ⌊q⌋

/-- The winner test of `resolve_bets`:
`(bet.direction == "will_complete" and outcome_is_complete) or
 (bet.direction == "will_fail" and not outcome_is_complete)`. -/
def isWinner (outcomeIsComplete : Bool) (b : Bet) : Bool :=
  (b.direction == "will_complete" && outcomeIsComplete) ||
  (b.direction == "will_fail" && !outcomeIsComplete)

/-- The unresolved bets of a commitment:
`db.query(Bet).filter(Bet.commitment_id == commitment.id, Bet.resolved == False)`. -/
def unresOf (c : Commitment) (bets : List Bet) : List Bet :=
  bets.filter (fun b => b.commitmentId == c.id && !b.resolved)

/-- The `winners` list of `resolve_bets`. -/
def winnersOf (c : Commitment) (bets : List Bet) : List Bet :=
  (unresOf c bets).filter (isWinner (c.status == "completed"))

/-- The `losers` list of `resolve_bets`. -/
def losersOf (c : Commitment) (bets : List Bet) : List Bet :=
  (unresOf c bets).filter (fun b => !(isWinner (c.status == "completed") b))

/-- `pot = sum(bet.amount for bet in losers)`. -/
def potOf (c : Commitment) (bets : List Bet) : Int :=
  ((losersOf c bets).map Bet.amount).sum

/-- `total_winner_stakes = sum(bet.amount for bet in winners)`. -/
def stakesOf (c : Commitment) (bets : List Bet) : Int :=
  ((winnersOf c bets).map Bet.amount).sum

/-- A winner's payout in `resolve_bets`: if `total_winner_stakes > 0` then
`bet.amount + int((bet.amount / total_winner_stakes) * pot)` (float division
idealised as exact rational division), else just the stake back. -/
def winPayout (totalWinnerStakes pot a : Int) : Int :=
  if 0 < totalWinnerStakes then
    a + pyInt ((a : ℚ) / (totalWinnerStakes : ℚ) * (pot : ℚ))
  else a

/-- The per-row mutation of `resolve_bets`: an unresolved bet of the
commitment is marked resolved, with payout `-amount` for a loser and
`winPayout` for a winner; every other row is untouched. -/
def settleBet (oc : Bool) (cid : Nat) (totalWinnerStakes pot : Int) (b : Bet) : Bet :=
  if b.commitmentId == cid && !b.resolved then
    if isWinner oc b then
      { b with resolved := true, payout := some (winPayout totalWinnerStakes pot b.amount) }
    else
      { b with resolved := true, payout := some (-b.amount) }
  else b

/-- `resolve_bets(db, commitment)` (main.py lines 325-376): partition the
commitment's unresolved bets into winners and losers, mark losers resolved
with payout `-amount`, mark winners resolved with stake plus a truncated
proportional share of the losers' pot, and credit each winner's payout to
their balance row when one exists.  Returns the updated bets table and
balances table; with no unresolved bets it returns immediately. -/
def resolveBets (c : Commitment) (bets : List Bet) (balances : List (Nat × Int)) :
    List Bet × List (Nat × Int) :=
  let unres := unresOf c bets
  if unres.isEmpty then (bets, balances)
  else
    let oc := c.status == "completed"
    let pot := potOf c bets
    let stakes := stakesOf c bets
    let newBets := bets.map (settleBet oc c.id stakes pot)
    let newBalances := (winnersOf c bets).foldl
      (fun bal b => creditFirst bal b.bettorId (winPayout stakes pot b.amount)) balances
    (newBets, newBalances)

def errBetCommitmentNotFound : Err := ⟨404, "Commitment not found"⟩
def errOwnBet : Err := ⟨400, "You cannot bet on your own commitment"⟩
def errBetResolvedCommitment : Err := ⟨400, "Cannot bet on a resolved commitment"⟩
def errDeadlinePassed : Err := ⟨400, "Cannot bet after deadline has passed"⟩
def errInvalidDirection : Err := ⟨400, "Invalid bet direction"⟩
def errNonPositiveAmount : Err := ⟨400, "Bet amount must be positive"⟩
def errInsufficientBalance : Err := ⟨400, "Insufficient balance"⟩
def errCompleteNotFound : Err := ⟨404, "Commitment not found"⟩
def errAlreadyResolved : Err := ⟨400, "Commitment is already resolved"⟩
def errDeleteCommitmentNotFound : Err :=
  ⟨404, "Commitment not found or you don\x27t have permission to delete it"⟩
def errHasBets : Err := ⟨400, "Cannot delete commitment with existing bets"⟩
def errBetNotFound : Err := ⟨404, "Bet not found"⟩
def errNotYourBet : Err := ⟨403, "You can only delete your own bets"⟩
def errBetAlreadyResolved : Err := ⟨400, "Cannot delete a resolved bet"⟩
def errBetOnResolvedGoal : Err := ⟨400, "Cannot delete bet on a resolved goal"⟩

/-- `POST /commitments/{commitment_id}/bets` (`create_bet`, main.py lines
869-936).  Validation order follows the source: commitment exists, bettor is
not the owner, status is pending, deadline not passed, direction valid,
amount positive, balance sufficient.  A missing balance row is lazily created
with the 500 starting grant (and that row persists even if the subsequent
balance check fails); `(lookupBalance st.balances u).getD 500` is exactly the
balance of the (possibly just created) row.  On success the stake is debited
and the bet row inserted with `resolved = false`. -/
def createBet (now : Int) (st : St) (userId cid : Nat) (direction : String)
    (amount : Int) : St × Except Err Bet :=
  match lookupCommitment st cid with
  | none => (st, .error errBetCommitmentNotFound)
  | some c =>
    if c.ownerId = userId then (st, .error errOwnBet)
    else if c.status ≠ "pending" then (st, .error errBetResolvedCommitment)
    else if c.deadline ≤ now then (st, .error errDeadlinePassed)
    else if direction ∉ ["will_complete", "will_fail"] then
      (st, .error errInvalidDirection)
    else if amount ≤ 0 then (st, .error errNonPositiveAmount)
    else
      let bal1 := match lookupBalance st.balances userId with
        | none => st.balances ++ [(userId, 500)]
        | some _ => st.balances
      let bv := (lookupBalance st.balances userId).getD 500
      if bv < amount then ({ st with balances := bal1 }, .error errInsufficientBalance)
      else
        let b : Bet := { id := st.nextBetId, commitmentId := cid, bettorId := userId,
                         direction := direction, amount := amount,
                         resolved := false, payout := none }
        ({ st with balances := creditFirst bal1 userId (-amount),
                   bets := st.bets ++ [b],
                   nextBetId := st.nextBetId + 1 }, .ok b)

/-- `DELETE /bets/{bet_id}` (`delete_bet`, main.py lines 939-973).  The bet
must exist, belong to the caller and be unresolved; if the parent commitment
exists and is no longer pending the deletion is rejected (a missing parent is
not checked, mirroring `if commitment and commitment.status != "pending"`).
On success the stake is refunded to the caller's balance row when one exists
and the bet row is deleted. -/
def deleteBet (st : St) (userId betId : Nat) : St × Except Err Unit :=
  match st.bets.find? (fun b => b.id == betId) with
  | none => (st, .error errBetNotFound)
  | some b =>
    if b.bettorId ≠ userId then (st, .error errNotYourBet)
    else if b.resolved then (st, .error errBetAlreadyResolved)
    else
      let notPending : Bool :=
        match lookupCommitment st b.commitmentId with
        | some c => c.status != "pending"
        | none => false
      if notPending then (st, .error errBetOnResolvedGoal)
      else
        ({ st with balances := creditFirst st.balances b.bettorId b.amount,
                   bets := st.bets.eraseP (fun x => x.id == betId) }, .ok ())

/-- `POST /commitments/{commitment_id}/complete` (`complete_commitment`,
main.py lines 771-838).  The single query filters on id AND owner, so a
commitment owned by someone else yields the same 404 as a missing one.  On
success the status flips to completed/failed, resolution fields are set, and
`resolve_bets` runs synchronously.  The AI coaching call is an external
boundary whose failure is swallowed and which never touches the ledger; it is
not modelled. -/
def completeCommitment (now : Int) (st : St) (userId cid : Nat) (completed : Bool)
    (report evidenceUrl : Option String) : St × Except Err Commitment :=
  match st.commitments.find? (fun c => c.id == cid && c.ownerId == userId) with
  | none => (st, .error errCompleteNotFound)
  | some c =>
    if c.status ≠ "pending" then (st, .error errAlreadyResolved)
    else
      let c2 := { c with status := if completed then "completed" else "failed",
                         completedAt := some now,
                         completionReport := report,
                         evidenceUrl := evidenceUrl }
      let commitments2 := st.commitments.map (fun x => if x.id == c.id then c2 else x)
      let res := resolveBets c2 st.bets st.balances
      ({ st with commitments := commitments2, bets := res.1, balances := res.2 },
       .ok c2)

/-- `DELETE /commitments/{commitment_id}` (`delete_commitment`, main.py lines
608-641).  The query filters on id AND owner (404 conflates missing and
not-owned); any bet referencing the commitment blocks deletion; on success
the context messages and coaching messages of the commitment are deleted
along with the commitment row. -/
def deleteCommitment (st : St) (userId cid : Nat) : St × Except Err Unit :=
  match st.commitments.find? (fun c => c.id == cid && c.ownerId == userId) with
  | none => (st, .error errDeleteCommitmentNotFound)
  | some _ =>
    if 0 < (st.bets.filter (fun b => b.commitmentId == cid)).length then
      (st, .error errHasBets)
    else
      ({ st with
          contextMessages := st.contextMessages.filter (fun m => m.commitmentId != cid),
          coachingMessages := st.coachingMessages.filter (fun m => m.commitmentId != cid),
          commitments := st.commitments.eraseP
            (fun c => c.id == cid && c.ownerId == userId) }, .ok ())

/-! ## Prediction/context adapter boundary (ai_client.py) -/

/-- The outcome of the external chat-adapter round trip inside
`generate_questions_for_commitment`: the `chatbot.ask` call or the
`json.loads` parse raised (both are caught by the same `except`), or the
response parsed to JSON that is not a list, or it parsed to a list of
question strings. -/
inductive QuestionsOutcome
  | failure
  | parsedNonList
  | parsedList (qs : List String)
deriving DecidableEq

/-- The `except` fallback list of `generate_questions_for_commitment`
(ai_client.py lines 80-87). -/
def fallbackQuestions : List String :=
  ["What\x27s your main motivation for completing this?",
   "How many hours per day/week can you dedicate to this?",
   "What obstacles might prevent you from completing this?",
   "Have you attempted something similar before? What happened?",
   "Who can support you in achieving this goal?"]

/-- The list returned when the response parses to JSON that is not a list
(ai_client.py lines 75-77). -/
def nonListQuestions : List String :=
  ["What\x27s your main motivation for this commitment?",
   "Have you attempted something similar before?",
   "What obstacles do you anticipate?"]

/-- `generate_questions_for_commitment` (ai_client.py lines 27-87), with the
external chat call and JSON parse summarised by a `QuestionsOutcome`: on a
parsed list the code returns `questions[:7]`; on a parsed non-list it returns
the fixed 3-item list; on any exception it returns the fixed `except`
fallback.  The commitment fields only shape the prompt and do not affect the
returned value, so they are omitted. -/
def generateQuestionsForCommitment (o : QuestionsOutcome) : List String :=
  match o with
  | .failure => fallbackQuestions
  | .parsedNonList => nonListQuestions
  | .parsedList qs => qs.take 7

/-- Round half to even (Python's `round` tie-breaking) of a rational to an
integer. -/
def rhe (q : ℚ) : Int :=
  if q - ⌊q⌋ < 1/2 then ⌊q⌋
  else if 1/2 < q - ⌊q⌋ then ⌊q⌋ + 1
  else if Even ⌊q⌋ then ⌊q⌋ else ⌊q⌋ + 1

/-- Python's `round(x, 3)`, idealised over exact rationals. -/
def round3 (q : ℚ) : ℚ := (rhe (q * 1000) : ℚ) / 1000

/-- `compute_heuristic_probability` (ai_client.py lines 260-295), with Python
floats idealised as exact rationals.  A pure, deterministic function of its
five arguments. -/
def compute_heuristic_probability (hoursRequired hoursAvailable : ℚ)
    (daysUntilDue : Int) (friendSupportScore userSuccessRate : ℚ) : ℚ :=
  if hoursRequired ≤ 0 then 1
  else
    let ratio0 := hoursAvailable / max hoursRequired 0.1
    let ratio := max 0 (min ratio0 2)
    let baseProb := min 1 (ratio / 1.5)
    let timeFactor := min 1 ((daysUntilDue : ℚ) / 14)
    let friendFactor := 0.1 * max (-1) (min friendSupportScore 1)
    let historyFactor := 0.1 * (userSuccessRate - 0.5)
    let prob := baseProb * 0.5 + timeFactor * 0.3 + friendFactor + historyFactor + 0.1
    round3 (max 0 (min prob 1))

/-- The heuristic as the specification words it: ratio, base, timeFactor,
friendFactor and historyFactor combined and clamped to `[0,1]`, rounded to 3
decimals, with the `hoursRequired ≤ 0` special case returning 1.  Written
from the spec text, to be compared with `compute_heuristic_probability`. -/
def heuristicProbabilitySpec (hoursRequired hoursAvailable : ℚ)
    (daysUntilDue : Int) (friendSupportScore pastSuccessRate : ℚ) : ℚ :=
  if hoursRequired ≤ 0 then 1
  else
    let ratio := max 0 (min (hoursAvailable / max hoursRequired 0.1) 2)
    let base := min 1 (ratio / 1.5)
    let timeFactor := min 1 ((daysUntilDue : ℚ) / 14)
    let friendFactor := 0.1 * max (-1) (min friendSupportScore 1)
    let historyFactor := 0.1 * (pastSuccessRate - 0.5)
    round3 (max 0 (min (base * 0.5 + timeFactor * 0.3 + friendFactor + historyFactor + 0.1) 1))

/-! ## Trace machine for the conservation property -/

/-- The money-moving operations: wager placement, wager cancellation and
commitment settlement. -/
inductive Act
  | place (now : Int) (userId cid : Nat) (direction : String) (amount : Int)
  | cancel (userId betId : Nat)
  | settle (now : Int) (userId cid : Nat) (completed : Bool)
deriving DecidableEq

/-- The rounding remainder of one settlement and its winner count, computed
from the commitment (with its terminal status already set) and the
pre-settlement bets table: the losers' pot minus the sum of the truncated
shares handed to winners. -/
def settleStats (c : Commitment) (bets : List Bet) : Int × Nat :=
  let pot := potOf c bets
  let stakes := stakesOf c bets
  (pot - ((winnersOf c bets).map (fun b => winPayout stakes pot b.amount - b.amount)).sum,
   (winnersOf c bets).length)

/-- Trace state: the database plus the ghost log of per-settlement
(rounding remainder, winner count) pairs. -/
structure TSt where
  st : St
  rems : List (Int × Nat)
deriving DecidableEq

/-- One step of the trace machine.  Failed operations leave the database as
the endpoint left it (for `createBet` this may include a lazily created
balance row); a successful settlement appends its remainder to the ghost
log. -/
def stepAct (t : TSt) : Act → TSt
  | .place now u cid dir amt => { t with st := (createBet now t.st u cid dir amt).1 }
  | .cancel u bid => { t with st := (deleteBet t.st u bid).1 }
  | .settle now u cid completed =>
    let res := completeCommitment now t.st u cid completed none none
    match res.2 with
    | .error _ => { t with st := res.1 }
    | .ok c2 => { st := res.1, rems := t.rems ++ [settleStats c2 t.st.bets] }

/-- Initial state: each listed user holds a fresh balance row with the 500
starting grant (`UserBalance(user_id=..., balance=500)` at registration);
the given commitments exist and no bets have been placed. -/
def initSt (users : List Nat) (cs : List Commitment) : St :=
  { commitments := cs, bets := [], balances := users.map (fun u => (u, 500)),
    contextMessages := [], coachingMessages := [], nextBetId := 1 }

/-- Run a sequence of operations from the initial state. -/
def runTrace (users : List Nat) (cs : List Commitment) (acts : List Act) : TSt :=
  acts.foldl stepAct { st := initSt users cs, rems := [] }

/-- Sum of all ledger balances. -/
def sumBal : List (Nat × Int) → Int
  | [] => 0
  | p :: l => p.2 + sumBal l

/-- Sum of the amounts of all currently-unresolved bets. -/
def sumUnres : List Bet → Int
  | [] => 0
  | b :: l => (if b.resolved then 0 else b.amount) + sumUnres l

/-! ## Basic lemmas about the balance table -/

theorem lookupBalance_cons (p : Nat × Int) (l : List (Nat × Int)) (u : Nat) :
    lookupBalance (p :: l) u = if p.1 = u then some p.2 else lookupBalance l u := by
  by_cases h : p.1 = u <;> simp [lookupBalance, List.find?_cons, h]

theorem lookupBalance_creditFirst (bal : List (Nat × Int)) (u : Nat) (amt : Int)
    (v : Nat) :
    lookupBalance (creditFirst bal u amt) v =
      if v = u then (lookupBalance bal v).map (· + amt) else lookupBalance bal v := by
  induction bal with
  | nil => simp [creditFirst, lookupBalance]
  | cons p rest ih =>
    by_cases hpu : p.1 = u
    · subst hpu
      rw [creditFirst, if_pos rfl]
      by_cases hvp : v = p.1
      · subst hvp
        simp [lookupBalance_cons]
      · simp [lookupBalance_cons, hvp, Ne.symm hvp]
    · rw [creditFirst, if_neg hpu]
      by_cases hpv : p.1 = v
      · subst hpv
        simp [lookupBalance_cons, hpu]
      · simp [lookupBalance_cons, hpv, ih]

theorem sumBal_creditFirst (bal : List (Nat × Int)) (u : Nat) (amt : Int) :
    sumBal (creditFirst bal u amt) =
      sumBal bal + (if (lookupBalance bal u).isSome then amt else 0) := by
  induction bal with
  | nil => simp [creditFirst, lookupBalance, sumBal]
  | cons p rest ih =>
    by_cases hpu : p.1 = u
    · subst hpu
      rw [creditFirst, if_pos rfl]
      simp [sumBal, lookupBalance_cons]
      ring
    · rw [creditFirst, if_neg hpu]
      simp [sumBal, lookupBalance_cons, hpu, ih]
      split_ifs <;> ring

theorem length_creditFirst (bal : List (Nat × Int)) (u : Nat) (amt : Int) :
    (creditFirst bal u amt).length = bal.length := by
  induction bal with
  | nil => rfl
  | cons p rest ih =>
    by_cases hpu : p.1 = u
    · rw [creditFirst, if_pos hpu]
      simp
    · rw [creditFirst, if_neg hpu]
      simp [ih]

theorem creditFirst_of_none (bal : List (Nat × Int)) (u : Nat) (amt : Int)
    (h : lookupBalance bal u = none) : creditFirst bal u amt = bal := by
  induction bal with
  | nil => rfl
  | cons p rest ih =>
    rw [lookupBalance_cons] at h
    by_cases hpu : p.1 = u
    · simp [hpu] at h
    · rw [creditFirst, if_neg hpu]
      rw [if_neg hpu] at h
      simp [ih h]

theorem sumBal_append (l1 l2 : List (Nat × Int)) :
    sumBal (l1 ++ l2) = sumBal l1 + sumBal l2 := by
  induction l1 with
  | nil => simp [sumBal]
  | cons p rest ih => simp [sumBal, ih]; ring

theorem lookupBalance_append (l1 l2 : List (Nat × Int)) (u : Nat) :
    lookupBalance (l1 ++ l2) u =
      ((lookupBalance l1 u).rec (lookupBalance l2 u) fun v => some v) := by
  induction l1 with
  | nil => simp [lookupBalance]
  | cons p rest ih =>
    rw [List.cons_append, lookupBalance_cons, lookupBalance_cons]
    split_ifs <;> simp [ih]

/-! ## Basic lemmas about the bets table -/

theorem sumUnres_cons (b : Bet) (l : List Bet) :
    sumUnres (b :: l) = (if b.resolved then 0 else b.amount) + sumUnres l := rfl

theorem sumUnres_append (l1 l2 : List Bet) :
    sumUnres (l1 ++ l2) = sumUnres l1 + sumUnres l2 := by
  induction l1 with
  | nil => simp [sumUnres]
  | cons b rest ih => simp [sumUnres_cons, ih]; ring

/-- Splitting a sum of mapped amounts along a Boolean predicate. -/
theorem sum_amount_filter_split (l : List Bet) (p : Bet → Bool) :
    ((l.filter p).map Bet.amount).sum +
      ((l.filter (fun b => !(p b))).map Bet.amount).sum = (l.map Bet.amount).sum := by
  induction l with
  | nil => simp
  | cons b rest ih =>
    by_cases hb : p b
    · simp [List.filter_cons, hb, ih.symm]
      ring
    · simp [List.filter_cons, hb, ih.symm]
      ring

theorem eraseP_of_find? (l : List Bet) (p : Bet → Bool) (b : Bet)
    (h : l.find? p = some b) :
    sumUnres (l.eraseP p) = sumUnres l - (if b.resolved then 0 else b.amount) ∧
    (∀ x ∈ l.eraseP p, x ∈ l) := by
  induction l with
  | nil => simp [List.find?] at h
  | cons a rest ih =>
    by_cases ha : p a
    · rw [List.find?_cons_of_pos _ ha] at h
      cases h
      constructor
      · simp [List.eraseP_cons_of_pos ha, sumUnres_cons]
      · intro x hx
        simp [List.eraseP_cons_of_pos ha] at hx
        simp [hx]
    · rw [List.find?_cons_of_neg _ ha] at h
      obtain ⟨h1, h2⟩ := ih h
      constructor
      · simp [List.eraseP_cons_of_neg ha, sumUnres_cons, h1]
        ring
      · intro x hx
        simp [List.eraseP_cons_of_neg ha] at hx
        rcases hx with hx | hx
        · simp [hx]
        · simp [h2 x hx]

/-- Crediting a fold of winners: effect on a single user's balance. -/
theorem lookupBalance_foldl_credit (l : List Bet) (bal : List (Nat × Int))
    (f : Bet → Int) (v : Nat) :
    lookupBalance (l.foldl (fun acc b => creditFirst acc b.bettorId (f b)) bal) v =
      (lookupBalance bal v).map
        (· + ((l.filter (fun b => b.bettorId == v)).map f).sum) := by
  induction l generalizing bal with
  | nil => simp
  | cons b rest ih =>
    rw [List.foldl_cons, ih, lookupBalance_creditFirst]
    by_cases hbv : v = b.bettorId
    · rw [if_pos hbv, List.filter_cons_of_pos (by simp [hbv])]
      cases lookupBalance bal v <;> simp <;> ring
    · rw [if_neg hbv, List.filter_cons_of_neg]
      simp
      exact fun h => hbv h.symm

/-- Crediting a fold of winners: effect on the total of all balances, when
every credited user has a balance row. -/
theorem sumBal_foldl_credit (l : List Bet) (bal : List (Nat × Int)) (f : Bet → Int)
    (h : ∀ b ∈ l, (lookupBalance bal b.bettorId).isSome) :
    sumBal (l.foldl (fun acc b => creditFirst acc b.bettorId (f b)) bal) =
      sumBal bal + (l.map f).sum := by
  induction l generalizing bal with
  | nil => simp
  | cons b rest ih =>
    rw [List.foldl_cons, ih]
    · rw [sumBal_creditFirst, if_pos (h b (by simp))]
      simp
      ring
    · intro x hx
      rw [lookupBalance_creditFirst]
      by_cases hv : x.bettorId = b.bettorId
      · rw [if_pos hv]
        have := h x (List.mem_cons_of_mem _ hx)
        cases hlb : lookupBalance bal x.bettorId <;> simp [hlb] at this ⊢
      · rw [if_neg hv]
        exact h x (List.mem_cons_of_mem _ hx)

/-! ## Structural lemmas about settlement -/

theorem settleBet_bettorId (oc : Bool) (cid : Nat) (T P : Int) (b : Bet) :
    (settleBet oc cid T P b).bettorId = b.bettorId := by
  unfold settleBet
  split_ifs <;> rfl

theorem settleBet_amount (oc : Bool) (cid : Nat) (T P : Int) (b : Bet) :
    (settleBet oc cid T P b).amount = b.amount := by
  unfold settleBet
  split_ifs <;> rfl

theorem settleBet_of_untouched (oc : Bool) (cid : Nat) (T P : Int) (b : Bet)
    (h : ¬ (b.commitmentId = cid ∧ b.resolved = false)) :
    settleBet oc cid T P b = b := by
  unfold settleBet
  rw [if_neg]
  simp only [Bool.and_eq_true, beq_iff_eq, Bool.not_eq_eq_eq_not, Bool.not_true]
  exact h

theorem resolveBets_fst (c : Commitment) (bets : List Bet) (bal : List (Nat × Int)) :
    (resolveBets c bets bal).1 =
      bets.map (settleBet (c.status == "completed") c.id (stakesOf c bets) (potOf c bets)) := by
  unfold resolveBets
  by_cases h : (unresOf c bets).isEmpty
  · rw [if_pos h]
    have hnil : unresOf c bets = [] := List.isEmpty_iff.mp h
    have : ∀ b ∈ bets, ¬ (b.commitmentId = c.id ∧ b.resolved = false) := by
      intro b hb hcon
      have : b ∈ unresOf c bets := by
        unfold unresOf
        rw [List.mem_filter]
        exact ⟨hb, by simp [hcon.1, hcon.2]⟩
      simp [hnil] at this
    conv_lhs => rw [show bets = bets.map id from (List.map_id bets).symm]
    exact List.map_congr_left fun b hb => (settleBet_of_untouched _ _ _ _ b (this b hb)).symm
  · rw [if_neg h]

theorem resolveBets_snd (c : Commitment) (bets : List Bet) (bal : List (Nat × Int)) :
    (resolveBets c bets bal).2 =
      (winnersOf c bets).foldl
        (fun acc b =>
          creditFirst acc b.bettorId (winPayout (stakesOf c bets) (potOf c bets) b.amount))
        bal := by
  unfold resolveBets
  by_cases h : (unresOf c bets).isEmpty
  · rw [if_pos h]
    have hnil : unresOf c bets = [] := List.isEmpty_iff.mp h
    unfold winnersOf
    rw [hnil]
    rfl
  · rw [if_neg h]

theorem sumUnres_map_settle (oc : Bool) (cid : Nat) (T P : Int) (bets : List Bet) :
    sumUnres (bets.map (settleBet oc cid T P)) =
      sumUnres bets -
        ((bets.filter (fun b => b.commitmentId == cid && !b.resolved)).map Bet.amount).sum := by
  induction bets with
  | nil => simp [sumUnres]
  | cons b rest ih =>
    by_cases hb : (b.commitmentId == cid && !b.resolved) = true
    · have hres : b.resolved = false := by
        simp at hb
        exact hb.2
      have hcid : b.commitmentId = cid := by
        simp at hb
        exact hb.1
      have hsb : (settleBet oc cid T P b).resolved = true := by
        unfold settleBet
        rw [if_pos hb]
        split_ifs <;> rfl
      rw [List.map_cons, sumUnres_cons, List.filter_cons]
      simp [hb, hcid, hsb, hres, ih, sumUnres_cons]
    · have hsb : settleBet oc cid T P b = b := by
        unfold settleBet
        rw [if_neg hb]
      rw [List.map_cons, sumUnres_cons, List.filter_cons]
      simp [hb, hsb, ih, sumUnres_cons]
      ring

theorem stakes_add_pot (c : Commitment) (bets : List Bet) :
    stakesOf c bets + potOf c bets = ((unresOf c bets).map Bet.amount).sum := by
  unfold stakesOf potOf winnersOf losersOf
  exact sum_amount_filter_split (unresOf c bets) (isWinner (c.status == "completed"))

/-! ## Arithmetic of the truncated proportional shares -/

theorem pyInt_eq_floor (q : ℚ) (h : 0 ≤ q) : pyInt q = ⌊q⌋ := by
  unfold pyInt
  rw [if_neg (not_lt.mpr h)]

theorem winPayout_share_eq_floor (T P a : Int) (hT : 0 < T) (ha : 0 ≤ a) (hP : 0 ≤ P) :
    winPayout T P a = a + ⌊(a : ℚ) / (T : ℚ) * (P : ℚ)⌋ := by
  unfold winPayout
  rw [if_pos hT, pyInt_eq_floor]
  apply mul_nonneg
  · apply div_nonneg
    · exact_mod_cast ha
    · exact_mod_cast hT.le
  · exact_mod_cast hP

theorem intCast_sum_map_rat (l : List Bet) (f : Bet → Int) :
    (((l.map f).sum : Int) : ℚ) = (l.map fun b => ((f b : Int) : ℚ)).sum := by
  induction l with
  | nil => simp
  | cons b rest ih => simp only [List.map_cons, List.sum_cons, Int.cast_add, ih]

theorem sum_map_sub_one_rat (l : List Bet) (f : Bet → ℚ) :
    (l.map fun b => f b - 1).sum = (l.map f).sum - l.length := by
  induction l with
  | nil => simp
  | cons b rest ih =>
    simp [ih]
    ring

/-- The exact proportional shares of a nonempty winners list sum to the pot. -/
theorem sum_exact_shares (l : List Bet) (P : Int)
    (hT : 0 < (l.map Bet.amount).sum) :
    (l.map fun (b : Bet) => (b.amount : ℚ) / (((l.map Bet.amount).sum : Int) : ℚ) * (P : ℚ)).sum
      = (P : ℚ) := by
  have hTne : ((((l.map Bet.amount).sum : Int)) : ℚ) ≠ 0 := by
    exact_mod_cast hT.ne'
  have hfun : (fun (b : Bet) => (b.amount : ℚ) / (((l.map Bet.amount).sum : Int) : ℚ) * (P : ℚ))
      = fun (b : Bet) => (b.amount : ℚ) *
          ((P : ℚ) / (((l.map Bet.amount).sum : Int) : ℚ)) := by
    funext b
    ring
  rw [hfun, List.sum_map_mul_right, mul_comm, ← intCast_sum_map_rat]
  exact div_mul_cancel₀ _ hTne

/-- The truncated shares of `resolve_bets` sum to at most the pot and lose
strictly less than one unit per winner: for a nonempty winners list with
positive stakes, `0 ≤ pot - Σ shares ≤ winners - 1`. -/
theorem settle_share_bounds (l : List Bet) (P : Int)
    (hpos : ∀ b ∈ l, 0 < b.amount) (hP : 0 ≤ P) (hne : l ≠ []) :
    0 ≤ P - (l.map (fun b => winPayout ((l.map Bet.amount).sum) P b.amount - b.amount)).sum ∧
    P - (l.map (fun b => winPayout ((l.map Bet.amount).sum) P b.amount - b.amount)).sum
      ≤ (l.length : Int) - 1 := by
  have hT : 0 < (l.map Bet.amount).sum := by
    apply List.sum_pos
    · intro a ha
      obtain ⟨b, hb, rfl⟩ := List.mem_map.mp ha
      exact hpos b hb
    · simp [hne]
  have hshare : (l.map (fun b => winPayout ((l.map Bet.amount).sum) P b.amount - b.amount))
      = l.map (fun (b : Bet) =>
          ⌊(b.amount : ℚ) / (((l.map Bet.amount).sum : Int) : ℚ) * (P : ℚ)⌋) := by
    apply List.map_congr_left
    intro b hb
    rw [winPayout_share_eq_floor _ _ _ hT (hpos b hb).le hP]
    ring
  rw [hshare]
  have hupper :
      ((l.map (fun (b : Bet) =>
          ⌊(b.amount : ℚ) / (((l.map Bet.amount).sum : Int) : ℚ) * (P : ℚ)⌋)).sum : Int)
        ≤ P := by
    have h1 : (((l.map (fun (b : Bet) =>
          ⌊(b.amount : ℚ) / (((l.map Bet.amount).sum : Int) : ℚ) * (P : ℚ)⌋)).sum : Int) : ℚ)
        ≤ (P : ℚ) := by
      rw [intCast_sum_map_rat]
      calc (l.map fun (b : Bet) =>
              ((⌊(b.amount : ℚ) / (((l.map Bet.amount).sum : Int) : ℚ) * (P : ℚ)⌋ : Int) : ℚ)).sum
          ≤ (l.map fun (b : Bet) =>
              (b.amount : ℚ) / (((l.map Bet.amount).sum : Int) : ℚ) * (P : ℚ)).sum := by
            apply List.sum_le_sum
            intro b hb
            exact Int.floor_le _
        _ = (P : ℚ) := sum_exact_shares l P hT
    exact_mod_cast h1
  have hlower :
      (P : Int) - (l.length : Int)
        < ((l.map (fun (b : Bet) =>
            ⌊(b.amount : ℚ) / (((l.map Bet.amount).sum : Int) : ℚ) * (P : ℚ)⌋)).sum : Int) := by
    have h2 : (l.map fun (b : Bet) =>
            ((b.amount : ℚ) / (((l.map Bet.amount).sum : Int) : ℚ) * (P : ℚ)) - 1).sum
        < (l.map fun (b : Bet) =>
            ((⌊(b.amount : ℚ) / (((l.map Bet.amount).sum : Int) : ℚ) * (P : ℚ)⌋ : Int) : ℚ)).sum := by
      apply List.sum_lt_sum
      · intro b hb
        exact (Int.sub_one_lt_floor _).le
      · obtain ⟨b, hb⟩ := List.exists_mem_of_ne_nil l hne
        exact ⟨b, hb, Int.sub_one_lt_floor _⟩
    rw [sum_map_sub_one_rat, sum_exact_shares l P hT] at h2
    have h1 : (P : ℚ) - (l.length : ℚ)
        < (((l.map (fun (b : Bet) =>
            ⌊(b.amount : ℚ) / (((l.map Bet.amount).sum : Int) : ℚ) * (P : ℚ)⌋)).sum : Int) : ℚ) := by
      rw [intCast_sum_map_rat]
      exact h2
    exact_mod_cast h1
  constructor
  · omega
  · omega

theorem mem_of_mem_unresOf (c : Commitment) (bets : List Bet) (b : Bet)
    (h : b ∈ unresOf c bets) : b ∈ bets := by
  unfold unresOf at h
  exact List.mem_of_mem_filter h

theorem mem_of_mem_winnersOf (c : Commitment) (bets : List Bet) (b : Bet)
    (h : b ∈ winnersOf c bets) : b ∈ bets := by
  unfold winnersOf at h
  exact mem_of_mem_unresOf c bets b (List.mem_of_mem_filter h)

theorem mem_of_mem_losersOf (c : Commitment) (bets : List Bet) (b : Bet)
    (h : b ∈ losersOf c bets) : b ∈ bets := by
  unfold losersOf at h
  exact mem_of_mem_unresOf c bets b (List.mem_of_mem_filter h)

theorem potOf_nonneg (c : Commitment) (bets : List Bet)
    (h : ∀ b ∈ bets, 0 ≤ b.amount) : 0 ≤ potOf c bets := by
  unfold potOf
  apply List.sum_nonneg
  intro a ha
  obtain ⟨b, hb, rfl⟩ := List.mem_map.mp ha
  exact h b (mem_of_mem_losersOf c bets b hb)

theorem unresOf_eq_self (c : Commitment) (bets : List Bet)
    (h : ∀ b ∈ bets, b.commitmentId = c.id ∧ b.resolved = false) :
    unresOf c bets = bets := by
  unfold unresOf
  apply List.filter_eq_self.mpr
  intro b hb
  simp [(h b hb).1, (h b hb).2]

/-- A bet marked resolved with the given payout, all other fields unchanged. -/
def settled (b : Bet) (p : Int) : Bet := { b with resolved := true, payout := some p }

/-- C1: For a settlement of a commitment resolved as completed or failed over
its unresolved wagers, every loser's payout is exactly `-amount`, every
winner's payout (when the total winner stake is positive) is
`amount + ⌊amount / totalWinnerStake * pot⌋`, and the balance table changes
exactly by crediting each winner's payout to the winner's row: a user's
balance row gains the sum of the payouts of their winning wagers (so a pure
loser's row is untouched). -/
theorem settlement_payouts (c : Commitment) (bets : List Bet) (bal : List (Nat × Int))
    (hst : c.status = "completed" ∨ c.status = "failed")
    (hbets : ∀ b ∈ bets, b.commitmentId = c.id ∧ b.resolved = false ∧ 0 < b.amount) :
    (∀ i, ∀ h : i < bets.length, isWinner (c.status == "completed") bets[i] = false →
        ((resolveBets c bets bal).1)[i]? =
          some (settled bets[i] (-(bets[i].amount)))) ∧
    (0 < stakesOf c bets → ∀ i, ∀ h : i < bets.length,
        isWinner (c.status == "completed") bets[i] = true →
        ((resolveBets c bets bal).1)[i]? =
          some (settled bets[i] (bets[i].amount +
            ⌊(bets[i].amount : ℚ) / (stakesOf c bets : ℚ) * (potOf c bets : ℚ)⌋))) ∧
    (∀ u, lookupBalance (resolveBets c bets bal).2 u =
        (lookupBalance bal u).map
          (· + (((winnersOf c bets).filter (fun b => b.bettorId == u)).map
              (fun b => winPayout (stakesOf c bets) (potOf c bets) b.amount)).sum)) := by
  have hmem : ∀ i, ∀ h : i < bets.length, bets[i] ∈ bets := fun i h => List.getElem_mem h
  refine ⟨?_, ?_, ?_⟩
  · intro i h hw
    rw [resolveBets_fst, List.getElem?_map, List.getElem?_eq_getElem h]
    obtain ⟨h1, h2, _⟩ := hbets bets[i] (hmem i h)
    simp only [Option.map_some']
    congr 1
    unfold settleBet settled
    rw [if_pos (by simp [h1, h2]), if_neg (by simp [hw])]
  · intro hT i h hw
    rw [resolveBets_fst, List.getElem?_map, List.getElem?_eq_getElem h]
    obtain ⟨h1, h2, h3⟩ := hbets bets[i] (hmem i h)
    simp only [Option.map_some']
    congr 1
    unfold settleBet settled
    rw [if_pos (by simp [h1, h2]), if_pos hw]
    rw [winPayout_share_eq_floor _ _ _ hT h3.le
      (potOf_nonneg c bets fun b hb => (hbets b hb).2.2.le)]
  · intro u
    rw [resolveBets_snd, lookupBalance_foldl_credit]

/-- The commitment of the settlement example: resolved `completed`. -/
def cPay : Commitment :=
  { id := 1, publicId := "PAYEX001", ownerId := 9, title := "example",
    description := none, category := "personal", deadline := 100,
    visibility := "public", status := "completed", completionReport := none,
    evidenceUrl := none, completedAt := some 1 }

/-- The wagers of the settlement example: A bets 100 on completion, B bets 50
on completion, C bets 60 against. -/
def betsPay : List Bet :=
  [{ id := 1, commitmentId := 1, bettorId := 1, direction := "will_complete",
     amount := 100, resolved := false, payout := none },
   { id := 2, commitmentId := 1, bettorId := 2, direction := "will_complete",
     amount := 50, resolved := false, payout := none },
   { id := 3, commitmentId := 1, bettorId := 3, direction := "will_fail",
     amount := 60, resolved := false, payout := none }]

/-- Balances after the three stakes were debited at placement time. -/
def balPay : List (Nat × Int) := [(1, 400), (2, 450), (3, 440)]

theorem settlement_payouts_witness :
    ((resolveBets cPay betsPay balPay).1)[0]? =
      some { id := 1, commitmentId := 1, bettorId := 1, direction := "will_complete",
             amount := 100, resolved := true, payout := some 140 } ∧
    ((resolveBets cPay betsPay balPay).1)[1]? =
      some { id := 2, commitmentId := 1, bettorId := 2, direction := "will_complete",
             amount := 50, resolved := true, payout := some 70 } ∧
    ((resolveBets cPay betsPay balPay).1)[2]? =
      some { id := 3, commitmentId := 1, bettorId := 3, direction := "will_fail",
             amount := 60, resolved := true, payout := some (-60) } ∧
    lookupBalance (resolveBets cPay betsPay balPay).2 1 = some 540 ∧
    lookupBalance (resolveBets cPay betsPay balPay).2 2 = some 520 ∧
    lookupBalance (resolveBets cPay betsPay balPay).2 3 = some 440 := by
  have h := settlement_payouts cPay betsPay balPay (Or.inl rfl) (by decide)
  have hT : 0 < stakesOf cPay betsPay := by decide
  have hs : stakesOf cPay betsPay = 150 := by decide
  have hp : potOf cPay betsPay = 60 := by decide
  refine ⟨?_, ?_, ?_, ?_, ?_, ?_⟩
  · rw [h.2.1 hT 0 (by decide) (by decide), hs, hp]
    norm_num [settled, betsPay]
  · rw [h.2.1 hT 1 (by decide) (by decide), hs, hp]
    norm_num [settled, betsPay]
  · rw [h.1 2 (by decide) (by decide)]
    norm_num [settled, betsPay]
  · rw [h.2.2 1, hs, hp]
    norm_num +decide [balPay, betsPay, cPay, lookupBalance, List.find?, winnersOf,
      losersOf, unresOf, isWinner, winPayout, pyInt, List.filter_cons]
  · rw [h.2.2 2, hs, hp]
    norm_num +decide [balPay, betsPay, cPay, lookupBalance, List.find?, winnersOf,
      losersOf, unresOf, isWinner, winPayout, pyInt, List.filter_cons]
  · rw [h.2.2 3, hs, hp]
    norm_num +decide [balPay, betsPay, cPay, lookupBalance, List.find?, winnersOf,
      losersOf, unresOf, isWinner, winPayout, pyInt, List.filter_cons]

/-! ## Conservation invariant for the trace machine -/

theorem lookupBalance_append_of_some (l1 l2 : List (Nat × Int)) (v : Nat) (x : Int)
    (h : lookupBalance l1 v = some x) : lookupBalance (l1 ++ l2) v = some x := by
  induction l1 with
  | nil => simp [lookupBalance] at h
  | cons p rest ih =>
    rw [lookupBalance_cons] at h
    rw [List.cons_append, lookupBalance_cons]
    by_cases hpv : p.1 = v
    · rw [if_pos hpv] at h ⊢
      exact h
    · rw [if_neg hpv] at h ⊢
      exact ih h

theorem lookupBalance_append_of_none (l1 l2 : List (Nat × Int)) (v : Nat)
    (h : lookupBalance l1 v = none) : lookupBalance (l1 ++ l2) v = lookupBalance l2 v := by
  induction l1 with
  | nil => simp
  | cons p rest ih =>
    rw [lookupBalance_cons] at h
    rw [List.cons_append, lookupBalance_cons]
    by_cases hpv : p.1 = v
    · rw [if_pos hpv] at h
      exact absurd h (by simp)
    · rw [if_neg hpv] at h ⊢
      exact ih h

theorem sumBal_map_grant (users : List Nat) :
    sumBal (users.map fun u => (u, (500 : Int))) = 500 * users.length := by
  induction users with
  | nil => simp [sumBal]
  | cons u rest ih =>
    simp [sumBal, ih]
    ring

theorem length_foldl_credit (l : List Bet) (bal : List (Nat × Int)) (f : Bet → Int) :
    (l.foldl (fun acc b => creditFirst acc b.bettorId (f b)) bal).length = bal.length := by
  induction l generalizing bal with
  | nil => rfl
  | cons b rest ih => rw [List.foldl_cons, ih, length_creditFirst]

theorem sum_map_split (l : List Bet) (f g : Bet → Int) :
    (l.map f).sum = (l.map g).sum + (l.map fun b => f b - g b).sum := by
  induction l with
  | nil => simp
  | cons b rest ih =>
    simp [ih]
    ring

/-- The conservation equation: all balances plus all escrowed (unresolved)
stakes plus all recorded settlement remainders equal the total of the 500
grants, one per balance record. -/
def conserved (t : TSt) : Prop :=
  sumBal t.st.balances + sumUnres t.st.bets + (t.rems.map Prod.fst).sum
    = 500 * (t.st.balances.length : Int)

/-- The inductive invariant: conservation, every bettor has a balance record,
every stake is positive, and every recorded settlement remainder is
nonnegative and bounded by winners - 1 when there was at least one winner. -/
def TraceInv (t : TSt) : Prop :=
  conserved t
  ∧ (∀ b ∈ t.st.bets, (lookupBalance t.st.balances b.bettorId).isSome)
  ∧ (∀ b ∈ t.st.bets, 0 < b.amount)
  ∧ (∀ r ∈ t.rems, 0 ≤ r.1 ∧ (1 ≤ r.2 → r.1 ≤ (r.2 : Int) - 1))

theorem traceInv_place (t : TSt) (now : Int) (u cid : Nat) (dir : String) (amt : Int)
    (h : TraceInv t) : TraceInv (stepAct t (.place now u cid dir amt)) := by
  obtain ⟨h1, h2, h3, h4⟩ := h
  simp only [stepAct]
  unfold createBet
  cases hc : lookupCommitment t.st cid with
  | none => exact ⟨h1, h2, h3, h4⟩
  | some c =>
    cases hlb : lookupBalance t.st.balances u with
    | none =>
      simp only [hlb, Option.getD_none]
      split_ifs with hown hstat hdl hdir hamt hbal
      · exact ⟨h1, h2, h3, h4⟩
      · exact ⟨h1, h2, h3, h4⟩
      · exact ⟨h1, h2, h3, h4⟩
      · exact ⟨h1, h2, h3, h4⟩
      · -- insufficient funds, balance row lazily created with the 500 grant
        refine ⟨?_, ?_, h3, h4⟩
        · unfold conserved at h1 ⊢
          simp only [sumBal_append, List.length_append]
          simp [sumBal]
          push_cast
          linarith [h1]
        · intro b hb
          obtain ⟨x, hx⟩ := Option.isSome_iff_exists.mp (h2 b hb)
          rw [lookupBalance_append_of_some _ _ _ _ hx]
          rfl
      · -- success, balance row lazily created then debited
        have hb1 : lookupBalance (t.st.balances ++ [(u, 500)]) u = some 500 := by
          rw [lookupBalance_append_of_none _ _ _ hlb]
          simp [lookupBalance_cons]
        refine ⟨?_, ?_, ?_, h4⟩
        · unfold conserved at h1 ⊢
          simp only [sumBal_creditFirst, hb1, Option.isSome_some, if_pos,
            sumBal_append, length_creditFirst, List.length_append, sumUnres_append]
          simp [sumBal, sumUnres]
          push_cast
          linarith [h1]
        · intro b hb
          rw [lookupBalance_creditFirst]
          rcases List.mem_append.mp hb with hb | hb
          · obtain ⟨x, hx⟩ := Option.isSome_iff_exists.mp (h2 b hb)
            by_cases hbu : b.bettorId = u
            · rw [if_pos hbu, hbu, hb1]
              rfl
            · rw [if_neg hbu, lookupBalance_append_of_some _ _ _ _ hx]
              rfl
          · simp at hb
            rw [hb]
            simp only [if_pos rfl, hb1]
            rfl
        · intro b hb
          rcases List.mem_append.mp hb with hb | hb
          · exact h3 b hb
          · simp at hb
            rw [hb]
            simpa using hamt
      · exact ⟨h1, h2, h3, h4⟩
    | some bv =>
      simp only [hlb, Option.getD_some]
      split_ifs with hown hstat hdl hdir hamt hbal
      · exact ⟨h1, h2, h3, h4⟩
      · exact ⟨h1, h2, h3, h4⟩
      · exact ⟨h1, h2, h3, h4⟩
      · exact ⟨h1, h2, h3, h4⟩
      · exact ⟨h1, h2, h3, h4⟩
      · -- success with an existing balance row
        refine ⟨?_, ?_, ?_, h4⟩
        · unfold conserved at h1 ⊢
          simp only [sumBal_creditFirst, hlb, Option.isSome_some, if_pos,
            length_creditFirst, sumUnres_append]
          simp [sumUnres]
          linarith [h1]
        · intro b hb
          rw [lookupBalance_creditFirst]
          rcases List.mem_append.mp hb with hb | hb
          · by_cases hbu : b.bettorId = u
            · rw [if_pos hbu, hbu, hlb]
              rfl
            · rw [if_neg hbu]
              exact h2 b hb
          · simp at hb
            rw [hb]
            simp only [if_pos rfl, hlb]
            rfl
        · intro b hb
          rcases List.mem_append.mp hb with hb | hb
          · exact h3 b hb
          · simp at hb
            rw [hb]
            simpa using hamt
      · exact ⟨h1, h2, h3, h4⟩

theorem traceInv_cancel (t : TSt) (u bid : Nat) (h : TraceInv t) :
    TraceInv (stepAct t (.cancel u bid)) := by
  obtain ⟨h1, h2, h3, h4⟩ := h
  simp only [stepAct]
  cases hf : t.st.bets.find? (fun b => b.id == bid) with
  | none =>
    simp only [deleteBet, hf]
    exact ⟨h1, h2, h3, h4⟩
  | some b =>
    simp only [deleteBet, hf]
    by_cases hbettor : b.bettorId ≠ u
    · rw [if_pos hbettor]
      exact ⟨h1, h2, h3, h4⟩
    · rw [if_neg hbettor]
      by_cases hres : b.resolved = true
      · rw [if_pos hres]
        exact ⟨h1, h2, h3, h4⟩
      · rw [if_neg hres]
        have hbmem : b ∈ t.st.bets := List.mem_of_find?_eq_some hf
        have hbrec := h2 b hbmem
        have hbres : b.resolved = false := by simpa using hres
        obtain ⟨he, hsubset⟩ := eraseP_of_find? t.st.bets _ b hf
        have hsucc : TraceInv { t with st := { t.st with
            balances := creditFirst t.st.balances b.bettorId b.amount,
            bets := t.st.bets.eraseP (fun x => x.id == bid) } } := by
          refine ⟨?_, ?_, ?_, h4⟩
          · unfold conserved at h1 ⊢
            simp only [sumBal_creditFirst, if_pos hbrec, length_creditFirst, he, hbres]
            simp at h1 ⊢
            linarith [h1]
          · intro x hx
            rw [lookupBalance_creditFirst]
            by_cases hxb : x.bettorId = b.bettorId
            · rw [if_pos hxb, hxb]
              obtain ⟨y, hy⟩ := Option.isSome_iff_exists.mp hbrec
              rw [hy]
              rfl
            · rw [if_neg hxb]
              exact h2 x (hsubset x hx)
          · intro x hx
            exact h3 x (hsubset x hx)
        cases hlc : lookupCommitment t.st b.commitmentId with
        | none =>
          simp only [hlc]
          exact hsucc
        | some c =>
          simp only [hlc]
          by_cases hnp : (c.status != "pending") = true
          · rw [if_pos hnp]
            exact ⟨h1, h2, h3, h4⟩
          · rw [if_neg hnp]
            exact hsucc

theorem traceInv_settle_core (c2 : Commitment) (st : St) (cs2 : List Commitment)
    (rems : List (Int × Nat))
    (h1 : sumBal st.balances + sumUnres st.bets + (rems.map Prod.fst).sum
            = 500 * (st.balances.length : Int))
    (h2 : ∀ b ∈ st.bets, (lookupBalance st.balances b.bettorId).isSome)
    (h3 : ∀ b ∈ st.bets, 0 < b.amount)
    (h4 : ∀ r ∈ rems, 0 ≤ r.1 ∧ (1 ≤ r.2 → r.1 ≤ (r.2 : Int) - 1)) :
    TraceInv ⟨{ st with commitments := cs2, bets := (resolveBets c2 st.bets st.balances).1, balances := (resolveBets c2 st.bets st.balances).2 },
              rems ++ [settleStats c2 st.bets]⟩ := by
  have hrecw : ∀ b ∈ winnersOf c2 st.bets, (lookupBalance st.balances b.bettorId).isSome :=
    fun b hb => h2 b (mem_of_mem_winnersOf _ _ _ hb)
  have hposall : ∀ b ∈ st.bets, 0 ≤ b.amount := fun b hb => (h3 b hb).le
  have hP : 0 ≤ potOf c2 st.bets := potOf_nonneg _ _ hposall
  have hSB : sumBal (resolveBets c2 st.bets st.balances).2
      = sumBal st.balances + ((winnersOf c2 st.bets).map
          (fun b => winPayout (stakesOf c2 st.bets) (potOf c2 st.bets) b.amount)).sum := by
    rw [resolveBets_snd]
    exact sumBal_foldl_credit _ _ _ hrecw
  have hSU : sumUnres (resolveBets c2 st.bets st.balances).1
      = sumUnres st.bets - ((unresOf c2 st.bets).map Bet.amount).sum := by
    rw [resolveBets_fst, sumUnres_map_settle]
    rfl
  have hLen : (resolveBets c2 st.bets st.balances).2.length = st.balances.length := by
    rw [resolveBets_snd]
    exact length_foldl_credit _ _ _
  have hsplit : ((winnersOf c2 st.bets).map
        (fun b => winPayout (stakesOf c2 st.bets) (potOf c2 st.bets) b.amount)).sum
      = stakesOf c2 st.bets + ((winnersOf c2 st.bets).map
          (fun b => winPayout (stakesOf c2 st.bets) (potOf c2 st.bets) b.amount - b.amount)).sum := by
    rw [sum_map_split (winnersOf c2 st.bets) _ Bet.amount]
    rfl
  have hTP := stakes_add_pot c2 st.bets
  have hstats : settleStats c2 st.bets
      = (potOf c2 st.bets - ((winnersOf c2 st.bets).map
          (fun b => winPayout (stakesOf c2 st.bets) (potOf c2 st.bets) b.amount - b.amount)).sum,
         (winnersOf c2 st.bets).length) := rfl
  refine ⟨?_, ?_, ?_, ?_⟩
  · show sumBal _ + sumUnres _ + (((rems ++ [settleStats c2 st.bets]).map Prod.fst).sum) = _
    rw [List.map_append, List.sum_append, hstats]
    simp only [List.map_cons, List.map_nil, List.sum_cons, List.sum_nil]
    rw [hSB, hSU, hLen, hsplit]
    linarith [h1, hTP]
  · intro x hx
    rw [resolveBets_fst] at hx
    obtain ⟨b, hb, rfl⟩ := List.mem_map.mp hx
    show (lookupBalance (resolveBets c2 st.bets st.balances).2 _).isSome = true
    rw [resolveBets_snd, lookupBalance_foldl_credit, settleBet_bettorId]
    have hrec := h2 b hb
    cases hlb : lookupBalance st.balances b.bettorId with
    | none =>
      rw [hlb] at hrec
      simp at hrec
    | some y => simp [hlb]
  · intro x hx
    rw [resolveBets_fst] at hx
    obtain ⟨b, hb, rfl⟩ := List.mem_map.mp hx
    rw [settleBet_amount]
    exact h3 b hb
  · intro r hr
    rcases List.mem_append.mp hr with hr | hr
    · exact h4 r hr
    · simp at hr
      subst hr
      rw [hstats]
      by_cases hw : winnersOf c2 st.bets = []
      · constructor
        · simp [hw]
          exact hP
        · intro hcon
          rw [hw] at hcon
          simp at hcon
      · have hpos : ∀ b ∈ winnersOf c2 st.bets, 0 < b.amount :=
          fun b hb => h3 b (mem_of_mem_winnersOf _ _ _ hb)
        have hbounds := settle_share_bounds (winnersOf c2 st.bets) (potOf c2 st.bets) hpos hP hw
        exact ⟨hbounds.1, fun _ => hbounds.2⟩

theorem traceInv_settle (t : TSt) (now : Int) (u cid : Nat) (completed : Bool)
    (h : TraceInv t) : TraceInv (stepAct t (.settle now u cid completed)) := by
  obtain ⟨h1, h2, h3, h4⟩ := h
  simp only [stepAct]
  cases hf : t.st.commitments.find? (fun c => c.id == cid && c.ownerId == u) with
  | none =>
    simp only [completeCommitment, hf]
    exact ⟨h1, h2, h3, h4⟩
  | some c =>
    simp only [completeCommitment, hf]
    by_cases hst : c.status ≠ "pending"
    · rw [if_pos hst]
      exact ⟨h1, h2, h3, h4⟩
    · rw [if_neg hst]
      exact traceInv_settle_core _ t.st _ t.rems h1 h2 h3 h4

theorem traceInv_step (t : TSt) (a : Act) (h : TraceInv t) : TraceInv (stepAct t a) := by
  cases a with
  | place now u cid dir amt => exact traceInv_place t now u cid dir amt h
  | cancel u bid => exact traceInv_cancel t u bid h
  | settle now u cid completed => exact traceInv_settle t now u cid completed h

theorem traceInv_foldl (acts : List Act) (t : TSt) (h : TraceInv t) :
    TraceInv (acts.foldl stepAct t) := by
  induction acts generalizing t with
  | nil => exact h
  | cons a rest ih => exact ih _ (traceInv_step t a h)

theorem traceInv_init (users : List Nat) (cs : List Commitment) :
    TraceInv ⟨initSt users cs, []⟩ := by
  refine ⟨?_, ?_, ?_, ?_⟩
  · show sumBal _ + sumUnres _ + _ = _
    simp [initSt, sumUnres, sumBal_map_grant]
  · intro b hb
    simp [initSt] at hb
  · intro b hb
    simp [initSt] at hb
  · intro r hr
    simp at hr

/-- C2 (amended): for any sequence of placements, cancellations and
settlements from the initial grants, the sum of balances PLUS the sum of
unresolved stakes PLUS the accumulated settlement rounding remainders equals
the total of the 500-unit grants (one per balance record, counting rows
lazily created at first bet); each settlement's remainder is nonnegative and,
when the settlement had at least one winner, at most winners - 1.  (The
claim's version, with the remainders subtracted and the bound unconditional,
is refuted by `conservation_claim_counterexample`.) -/
theorem conservation_of_currency (users : List Nat) (cs : List Commitment)
    (acts : List Act) :
    sumBal (runTrace users cs acts).st.balances
        + sumUnres (runTrace users cs acts).st.bets
        + (((runTrace users cs acts).rems.map Prod.fst).sum)
      = 500 * ((runTrace users cs acts).st.balances.length : Int) ∧
    ∀ r ∈ (runTrace users cs acts).rems,
      0 ≤ r.1 ∧ (1 ≤ r.2 → r.1 ≤ (r.2 : Int) - 1) := by
  have h := traceInv_foldl acts ⟨initSt users cs, []⟩ (traceInv_init users cs)
  exact ⟨h.1, h.2.2.2⟩

/-- A pending commitment owned by user 3, used in the conservation trace. -/
def cCons : Commitment :=
  { id := 1, publicId := "CONSEX01", ownerId := 3, title := "trace",
    description := none, category := "personal", deadline := 100,
    visibility := "public", status := "pending", completionReport := none,
    evidenceUrl := none, completedAt := none }

/-- A second pending commitment owned by user 3. -/
def cCons2 : Commitment := { cCons with id := 2, publicId := "CONSEX02" }

/-- A trace with two settlements: one with two winners and a one-unit
rounding remainder, one with no winners where the whole 60-unit pot is
destroyed. -/
def actsCons : List Act :=
  [.place 0 1 1 "will_complete" 1,
   .place 0 2 1 "will_complete" 1,
   .place 0 4 1 "will_fail" 1,
   .settle 1 3 1 true,
   .place 0 1 2 "will_complete" 60,
   .settle 1 3 2 false]

/-- C2 as stated is false: on the trace `actsCons` from grants totalling
2000, balances sum to 1939 with no unresolved stakes and recorded remainders
1 and 60, so `Σ balances + Σ unresolved - Σ remainders = 1878 ≠ 2000` (the
remainders must be ADDED, not subtracted, to recover the grants); moreover
the second settlement has 0 winners and remainder 60, violating the claimed
bound of `winners - 1`. -/
theorem conservation_claim_counterexample :
    sumBal (runTrace [1, 2, 4, 3] [cCons, cCons2] actsCons).st.balances
        + sumUnres (runTrace [1, 2, 4, 3] [cCons, cCons2] actsCons).st.bets
        - (((runTrace [1, 2, 4, 3] [cCons, cCons2] actsCons).rems.map Prod.fst).sum)
      ≠ 500 * ((runTrace [1, 2, 4, 3] [cCons, cCons2] actsCons).st.balances.length : Int) ∧
    ((60 : Int), (0 : Nat)) ∈ (runTrace [1, 2, 4, 3] [cCons, cCons2] actsCons).rems ∧
    ¬ ((60 : Int) ≤ ((0 : Nat) : Int) - 1) := by
  have hrun : (runTrace [1, 2, 4, 3] [cCons, cCons2] actsCons).rems = [(1, 2), (60, 0)] ∧
      sumBal (runTrace [1, 2, 4, 3] [cCons, cCons2] actsCons).st.balances = 1939 ∧
      sumUnres (runTrace [1, 2, 4, 3] [cCons, cCons2] actsCons).st.bets = 0 ∧
      (runTrace [1, 2, 4, 3] [cCons, cCons2] actsCons).st.balances.length = 4 := by
    norm_num +decide [runTrace, stepAct, completeCommitment, createBet, resolveBets,
      settleStats, winnersOf, losersOf, unresOf, potOf, stakesOf, winPayout, pyInt,
      isWinner, lookupCommitment, lookupBalance, creditFirst, settleBet, initSt,
      actsCons, cCons, cCons2, List.find?, List.filter_cons, List.foldl_cons,
      List.foldl_nil, sumBal, sumUnres]
  obtain ⟨hr, hb, hu, hl⟩ := hrun
  refine ⟨?_, ?_, ?_⟩
  · rw [hr, hb, hu, hl]
    norm_num
  · rw [hr]
    simp
  · norm_num

theorem conservation_of_currency_witness :
    sumBal (runTrace [1, 2, 4, 3] [cCons, cCons2] actsCons).st.balances
        + sumUnres (runTrace [1, 2, 4, 3] [cCons, cCons2] actsCons).st.bets
        + (((runTrace [1, 2, 4, 3] [cCons, cCons2] actsCons).rems.map Prod.fst).sum)
      = 2000 ∧
    ((1 : Int), (2 : Nat)) ∈ (runTrace [1, 2, 4, 3] [cCons, cCons2] actsCons).rems ∧
    (1 : Int) ≤ ((2 : Nat) : Int) - 1 := by
  have h := conservation_of_currency [1, 2, 4, 3] [cCons, cCons2] actsCons
  have hr : (runTrace [1, 2, 4, 3] [cCons, cCons2] actsCons).rems = [(1, 2), (60, 0)] ∧
      (runTrace [1, 2, 4, 3] [cCons, cCons2] actsCons).st.balances.length = 4 := by
    norm_num +decide [runTrace, stepAct, completeCommitment, createBet, resolveBets,
      settleStats, winnersOf, losersOf, unresOf, potOf, stakesOf, winPayout, pyInt,
      isWinner, lookupCommitment, lookupBalance, creditFirst, settleBet, initSt,
      actsCons, cCons, cCons2, List.find?, List.filter_cons, List.foldl_cons,
      List.foldl_nil]
  have hmem : ((1 : Int), (2 : Nat)) ∈ (runTrace [1, 2, 4, 3] [cCons, cCons2] actsCons).rems := by
    rw [hr.1]
    simp
  refine ⟨?_, hmem, ?_⟩
  · rw [h.1, hr.2]
    norm_num
  · exact (h.2 (1, 2) hmem).2 (by norm_num)

/-! ## No double settlement -/

theorem find?_replace_status (cs : List Commitment) (c c2 : Commitment) (cid u : Nat)
    (hfind : cs.find? (fun x => x.id == cid && x.ownerId == u) = some c)
    (hid : c2.id = c.id) (hq : (c2.id == cid && c2.ownerId == u) = true) :
    (cs.map (fun x => if x.id == c.id then c2 else x)).find?
        (fun x => x.id == cid && x.ownerId == u) = some c2 := by
  have hcid : c.id = cid := by
    have hqc := List.find?_some hfind
    simp at hqc
    exact hqc.1
  induction cs with
  | nil => simp at hfind
  | cons a rest ih =>
    rw [List.find?_cons] at hfind
    by_cases ha : (a.id == c.id) = true
    · rw [List.map_cons, if_pos ha, List.find?_cons]
      simp only [hq]
    · have hqa : (a.id == cid && a.ownerId == u) = false := by
        by_cases hq2 : (a.id == cid && a.ownerId == u) = true
        · exfalso
          simp only [hq2] at hfind
          have hac : a = c := by simpa using hfind
          rw [hac] at ha
          simp at ha
        · simpa using hq2
      simp only [hqa] at hfind
      rw [List.map_cons, if_neg ha, List.find?_cons]
      simp only [hqa]
      exact ih hfind

/-- C3: a second invocation of commitment resolution (the operation that
triggers settlement) after a successful first one is rejected with the
"Commitment is already resolved" error and returns the state unchanged: no
balance changes and no wager payout changes. -/
theorem no_double_settlement (now now2 : Int) (st st1 : St) (u cid : Nat)
    (completed completed2 : Bool) (rep ev rep2 ev2 : Option String) (c2 : Commitment)
    (h : completeCommitment now st u cid completed rep ev = (st1, .ok c2)) :
    completeCommitment now2 st1 u cid completed2 rep2 ev2
      = (st1, .error errAlreadyResolved) := by
  cases hf : st.commitments.find? (fun c => c.id == cid && c.ownerId == u) with
  | none =>
    simp only [completeCommitment, hf] at h
    simp at h
  | some c =>
    simp only [completeCommitment, hf] at h
    by_cases hst : c.status ≠ "pending"
    · rw [if_pos hst] at h
      simp at h
    · rw [if_neg hst] at h
      rw [Prod.mk.injEq] at h
      obtain ⟨hA, hB⟩ := h
      injection hB with hB2
      subst hA
      have hq : (c.id == cid && c.ownerId == u) = true := (List.find?_eq_some.mp hf).1
      rw [hB2]
      have hid : c2.id = c.id := by
        rw [← hB2]
      have hq2 : (c2.id == cid && c2.ownerId == u) = true := by
        rw [← hB2]
        exact hq
      have hne2 : c2.status ≠ "pending" := by
        rw [← hB2]
        cases completed <;> simp
      have hrepl := find?_replace_status st.commitments c c2 cid u hf hid hq2
      simp only [completeCommitment, hrepl]
      rw [if_pos hne2]

/-- A pending commitment owned by user 1, for the double-settlement run. -/
def cDou : Commitment :=
  { id := 1, publicId := "DOUBLE01", ownerId := 1, title := "d",
    description := none, category := "personal", deadline := 100,
    visibility := "public", status := "pending", completionReport := none,
    evidenceUrl := none, completedAt := none }

def stDou : St :=
  { commitments := [cDou], bets := [], balances := [(1, 500)],
    contextMessages := [], coachingMessages := [], nextBetId := 1 }

/-- `cDou` after a successful resolution as completed at time 0. -/
def cDou2 : Commitment := { cDou with status := "completed", completedAt := some 0 }

def stDou2 : St := { stDou with commitments := [cDou2] }

theorem no_double_settlement_witness :
    completeCommitment 0 stDou 1 1 true none none = (stDou2, .ok cDou2) ∧
    completeCommitment 5 stDou2 1 1 false none none
      = (stDou2, .error errAlreadyResolved) := by
  have h1 : completeCommitment 0 stDou 1 1 true none none = (stDou2, .ok cDou2) := by
    norm_num +decide [completeCommitment, stDou, cDou, stDou2, cDou2, resolveBets,
      unresOf, List.find?, lookupCommitment]
  exact ⟨h1, no_double_settlement 0 5 stDou stDou2 1 1 true false none none none none
    cDou2 h1⟩

/-! ## Wager placement validation -/

/-- The bet row inserted by a successful `create_bet`. -/
def newBet (st : St) (u cid : Nat) (dir : String) (amt : Int) : Bet := { id := st.nextBetId, commitmentId := cid, bettorId := u, direction := dir, amount := amt, resolved := false, payout := none }

/-- C4: `create_bet` validates in source order - commitment exists, bettor is
not the owner, commitment pending, deadline not passed, direction valid,
amount positive, balance sufficient - failing with the corresponding error;
on success it debits the bettor's balance by `amount` and appends the wager
with `resolved = false`; on failure no wager is created and no debit is
applied (`(lookupBalance st.balances u).getD 500` is the bettor's effective
balance, accounting for the lazily created 500-grant row). -/
theorem wager_placement_validation (now : Int) (st : St) (u cid : Nat) (dir : String)
    (amt : Int) :
    (lookupCommitment st cid = none →
      createBet now st u cid dir amt = (st, .error errBetCommitmentNotFound)) ∧
    (∀ c, lookupCommitment st cid = some c →
      (c.ownerId = u → createBet now st u cid dir amt = (st, .error errOwnBet)) ∧
      (c.ownerId ≠ u → c.status ≠ "pending" →
        createBet now st u cid dir amt = (st, .error errBetResolvedCommitment)) ∧
      (c.ownerId ≠ u → c.status = "pending" → c.deadline ≤ now →
        createBet now st u cid dir amt = (st, .error errDeadlinePassed)) ∧
      (c.ownerId ≠ u → c.status = "pending" → now < c.deadline →
        dir ∉ ["will_complete", "will_fail"] →
        createBet now st u cid dir amt = (st, .error errInvalidDirection)) ∧
      (c.ownerId ≠ u → c.status = "pending" → now < c.deadline →
        dir ∈ ["will_complete", "will_fail"] → amt ≤ 0 →
        createBet now st u cid dir amt = (st, .error errNonPositiveAmount)) ∧
      (c.ownerId ≠ u → c.status = "pending" → now < c.deadline →
        dir ∈ ["will_complete", "will_fail"] → 0 < amt →
        (lookupBalance st.balances u).getD 500 < amt →
        (createBet now st u cid dir amt).2 = .error errInsufficientBalance ∧
        (createBet now st u cid dir amt).1.bets = st.bets ∧
        lookupBalance (createBet now st u cid dir amt).1.balances u
          = some ((lookupBalance st.balances u).getD 500)) ∧
      (c.ownerId ≠ u → c.status = "pending" → now < c.deadline →
        dir ∈ ["will_complete", "will_fail"] → 0 < amt →
        amt ≤ (lookupBalance st.balances u).getD 500 →
        (createBet now st u cid dir amt).2 = .ok (newBet st u cid dir amt) ∧
        (createBet now st u cid dir amt).1.bets = st.bets ++ [newBet st u cid dir amt] ∧
        lookupBalance (createBet now st u cid dir amt).1.balances u
          = some ((lookupBalance st.balances u).getD 500 - amt) ∧
        (∀ v, v ≠ u → lookupBalance (createBet now st u cid dir amt).1.balances v
          = lookupBalance st.balances v))) := by
  constructor
  · intro hc
    simp only [createBet, hc]
  · intro c hc
    refine ⟨?_, ?_, ?_, ?_, ?_, ?_, ?_⟩
    · intro hown
      simp only [createBet, hc]
      rw [if_pos hown]
    · intro hown hstat
      simp only [createBet, hc]
      rw [if_neg hown, if_pos hstat]
    · intro hown hstat hdl
      simp only [createBet, hc]
      rw [if_neg hown, if_neg (by simp [hstat]), if_pos hdl]
    · intro hown hstat hdl hdir
      simp only [createBet, hc]
      rw [if_neg hown, if_neg (by simp [hstat]), if_neg (not_le.mpr hdl), if_pos hdir]
    · intro hown hstat hdl hdir hamt
      simp only [createBet, hc]
      rw [if_neg hown, if_neg (by simp [hstat]), if_neg (not_le.mpr hdl),
        if_neg (by simp [hdir]), if_pos hamt]
    · intro hown hstat hdl hdir hamt hbal
      simp only [createBet, hc]
      rw [if_neg hown, if_neg (by simp [hstat]), if_neg (not_le.mpr hdl),
        if_neg (by simp [hdir]), if_neg (not_le.mpr hamt)]
      cases hlb : lookupBalance st.balances u with
      | none =>
        rw [hlb] at hbal
        simp only [Option.getD_none] at hbal
        simp only [hlb, Option.getD_none, if_pos hbal]
        refine ⟨by trivial, by trivial, ?_⟩
        rw [lookupBalance_append_of_none _ _ _ hlb]
        simp [lookupBalance_cons]
      | some bv =>
        rw [hlb] at hbal
        simp only [Option.getD_some] at hbal
        simp only [hlb, Option.getD_some, if_pos hbal]
        exact ⟨by trivial, by trivial, by simp [hlb]⟩
    · intro hown hstat hdl hdir hamt hbal
      simp only [createBet, hc]
      rw [if_neg hown, if_neg (by simp [hstat]), if_neg (not_le.mpr hdl),
        if_neg (by simp [hdir]), if_neg (not_le.mpr hamt)]
      cases hlb : lookupBalance st.balances u with
      | none =>
        rw [hlb] at hbal
        simp only [Option.getD_none] at hbal
        have hb1 : lookupBalance (st.balances ++ [(u, 500)]) u = some 500 := by
          rw [lookupBalance_append_of_none _ _ _ hlb]
          simp [lookupBalance_cons]
        simp only [hlb, Option.getD_none, if_neg (not_lt.mpr hbal)]
        refine ⟨by trivial, by trivial, ?_, ?_⟩
        · rw [lookupBalance_creditFirst, if_pos rfl, hb1]
          rfl
        · intro v hv
          rw [lookupBalance_creditFirst, if_neg hv]
          cases hlv : lookupBalance st.balances v with
          | none =>
            rw [lookupBalance_append_of_none _ _ _ hlv, lookupBalance_cons]
            rw [if_neg (fun h => hv h.symm)]
            rfl
          | some y => exact lookupBalance_append_of_some _ _ _ _ hlv
      | some bv =>
        rw [hlb] at hbal
        simp only [Option.getD_some] at hbal
        simp only [hlb, Option.getD_some, if_neg (not_lt.mpr hbal)]
        refine ⟨by trivial, by trivial, ?_, ?_⟩
        · rw [lookupBalance_creditFirst, if_pos rfl, hlb]
          rfl
        · intro v hv
          rw [lookupBalance_creditFirst, if_neg hv]

/-- A pending commitment owned by user 3, for placement runs. -/
def cBetW : Commitment :=
  { id := 1, publicId := "BETWIT01", ownerId := 3, title := "w",
    description := none, category := "personal", deadline := 100,
    visibility := "public", status := "pending", completionReport := none,
    evidenceUrl := none, completedAt := none }

def stBetW : St :=
  { commitments := [cBetW], bets := [], balances := [(2, 500)],
    contextMessages := [], coachingMessages := [], nextBetId := 1 }

theorem wager_placement_validation_witness :
    (createBet 0 stBetW 2 1 "will_complete" 100).2
      = .ok (newBet stBetW 2 1 "will_complete" 100) ∧
    (createBet 0 stBetW 2 1 "will_complete" 100).1.bets
      = stBetW.bets ++ [newBet stBetW 2 1 "will_complete" 100] ∧
    lookupBalance (createBet 0 stBetW 2 1 "will_complete" 100).1.balances 2
      = some 400 ∧
    (createBet 0 stBetW 2 1 "will_complete" 600).2 = .error errInsufficientBalance ∧
    (createBet 0 stBetW 2 1 "will_complete" 600).1.bets = stBetW.bets := by
  have h := wager_placement_validation 0 stBetW 2 1 "will_complete" 100
  have h6 := wager_placement_validation 0 stBetW 2 1 "will_complete" 600
  have hc : lookupCommitment stBetW 1 = some cBetW := by decide
  have hsucc := (h.2 cBetW hc).2.2.2.2.2.2 (by decide) (by decide) (by decide)
    (by decide) (by decide) (by decide)
  have hins := (h6.2 cBetW hc).2.2.2.2.2.1 (by decide) (by decide) (by decide)
    (by decide) (by decide) (by decide)
  exact ⟨hsucc.1, hsucc.2.1, hsucc.2.2.1.trans (by decide), hins.1, hins.2.1⟩

/-! ## Wager cancellation -/

/-- C5: `delete_bet` succeeds exactly for the bettor of an unresolved wager
whose parent commitment (when it exists) is still pending, failing with the
corresponding NotFound / Forbidden / InvalidState errors otherwise; on
success it credits exactly the staked amount back to the bettor's balance
row (other rows untouched) and deletes the wager record. -/
theorem wager_cancellation (st : St) (u bid : Nat) :
    (st.bets.find? (fun b => b.id == bid) = none →
      deleteBet st u bid = (st, .error errBetNotFound)) ∧
    (∀ b, st.bets.find? (fun b => b.id == bid) = some b →
      (b.bettorId ≠ u → deleteBet st u bid = (st, .error errNotYourBet)) ∧
      (b.bettorId = u → b.resolved = true →
        deleteBet st u bid = (st, .error errBetAlreadyResolved)) ∧
      (b.bettorId = u → b.resolved = false →
        ∀ c, lookupCommitment st b.commitmentId = some c → c.status ≠ "pending" →
        deleteBet st u bid = (st, .error errBetOnResolvedGoal)) ∧
      (b.bettorId = u → b.resolved = false →
        ∀ c, lookupCommitment st b.commitmentId = some c → c.status = "pending" →
        ∀ v, lookupBalance st.balances u = some v →
        (deleteBet st u bid).2 = .ok () ∧
        (deleteBet st u bid).1.bets = st.bets.eraseP (fun x => x.id == bid) ∧
        lookupBalance (deleteBet st u bid).1.balances u = some (v + b.amount) ∧
        (∀ w, w ≠ u → lookupBalance (deleteBet st u bid).1.balances w
          = lookupBalance st.balances w) ∧
        (deleteBet st u bid).1.commitments = st.commitments) ∧
      ((deleteBet st u bid).2 = .ok () →
        ∀ c, lookupCommitment st b.commitmentId = some c →
        b.bettorId = u ∧ b.resolved = false ∧ c.status = "pending")) := by
  constructor
  · intro hf
    simp only [deleteBet, hf]
  · intro b hf
    refine ⟨?_, ?_, ?_, ?_, ?_⟩
    · intro hbettor
      simp only [deleteBet, hf]
      rw [if_pos hbettor]
    · intro hbettor hres
      simp only [deleteBet, hf]
      rw [if_neg (by simp [hbettor]), if_pos hres]
    · intro hbettor hres c hlc hcs
      simp only [deleteBet, hf, hlc]
      rw [if_neg (by simp [hbettor]), if_neg (by simp [hres]),
        if_pos (by simp [bne_iff_ne, hcs])]
    · intro hbettor hres c hlc hcs v hv
      simp only [deleteBet, hf, hlc]
      rw [if_neg (by simp [hbettor]), if_neg (by simp [hres]),
        if_neg (by simp [bne_iff_ne, hcs])]
      refine ⟨by trivial, by trivial, ?_, ?_, by trivial⟩
      · rw [lookupBalance_creditFirst, hbettor, if_pos rfl, hv]
        rfl
      · intro w hw
        rw [lookupBalance_creditFirst, hbettor, if_neg hw]
    · intro hok c hlc
      simp only [deleteBet, hf, hlc] at hok
      by_cases hbettor : b.bettorId = u
      · by_cases hres : b.resolved = true
        · rw [if_neg (by simp [hbettor]), if_pos hres] at hok
          simp at hok
        · by_cases hcs : c.status = "pending"
          · exact ⟨hbettor, by simpa using hres, hcs⟩
          · rw [if_neg (by simp [hbettor]), if_neg hres,
              if_pos (by simp [bne_iff_ne, hcs])] at hok
            simp at hok
      · rw [if_pos (by simp [hbettor])] at hok
        simp at hok

def cCan : Commitment :=
  { id := 1, publicId := "CANWIT01", ownerId := 3, title := "c",
    description := none, category := "personal", deadline := 100,
    visibility := "public", status := "pending", completionReport := none,
    evidenceUrl := none, completedAt := none }

def betCan : Bet :=
  { id := 1, commitmentId := 1, bettorId := 2, direction := "will_complete",
    amount := 100, resolved := false, payout := none }

def stCan : St :=
  { commitments := [cCan], bets := [betCan], balances := [(2, 400)],
    contextMessages := [], coachingMessages := [], nextBetId := 2 }

theorem wager_cancellation_witness :
    (deleteBet stCan 2 1).2 = .ok () ∧
    (deleteBet stCan 2 1).1.bets = [] ∧
    lookupBalance (deleteBet stCan 2 1).1.balances 2 = some 500 ∧
    deleteBet stCan 5 1 = (stCan, .error errNotYourBet) := by
  have h := wager_cancellation stCan 2 1
  have h5 := wager_cancellation stCan 5 1
  have hf : stCan.bets.find? (fun b => b.id == 1) = some betCan := by decide
  have hsucc := ((h.2 betCan hf).2.2.2.1) (by decide) (by decide) cCan (by decide)
    (by decide) 400 (by decide)
  exact ⟨hsucc.1, hsucc.2.1.trans (by decide), hsucc.2.2.1.trans (by decide),
    ((h5.2 betCan hf).1) (by decide)⟩

/-! ## Commitment resolution and deletion error modes -/

/-- A pending commitment owned by user 1, used to exhibit the conflated
404 for non-owner actors. -/
def cRes : Commitment :=
  { id := 1, publicId := "RESOWN01", ownerId := 1, title := "r",
    description := none, category := "personal", deadline := 100,
    visibility := "public", status := "pending", completionReport := none,
    evidenceUrl := none, completedAt := none }

def stRes : St :=
  { commitments := [cRes], bets := [], balances := [(1, 500), (2, 500)],
    contextMessages := [], coachingMessages := [], nextBetId := 1 }

/-- C6 as stated is false: when user 2 (who exists but is not the owner)
resolves commitment 1, `complete_commitment` returns exactly the same
404 "Commitment not found" as for a nonexistent id - ownership failure is
not surfaced as a distinct Forbidden (status 403). -/
theorem resolution_error_modes_counterexample :
    completeCommitment 0 stRes 2 1 true none none
      = (stRes, .error errCompleteNotFound) ∧
    completeCommitment 0 stRes 2 999 true none none
      = (stRes, .error errCompleteNotFound) ∧
    errCompleteNotFound.status = 404 ∧ errCompleteNotFound.status ≠ 403 := by
  refine ⟨?_, ?_, rfl, by decide⟩
  · simp only [completeCommitment]
    rw [show stRes.commitments.find? (fun c => c.id == 1 && c.ownerId == 2) = none
      from by decide]
  · simp only [completeCommitment]
    rw [show stRes.commitments.find? (fun c => c.id == 999 && c.ownerId == 2) = none
      from by decide]

/-- C6 (amended): resolution fails with the single NotFound error
(404 "Commitment not found") both when the commitment id does not exist and
when it exists but the actor is not the owner - the two failure modes are
conflated, not distinct - and fails with the distinct InvalidState error
(400 "Commitment is already resolved") when the actor owns the commitment
but its status is not pending. -/
theorem resolution_error_modes (now : Int) (st : St) (u cid : Nat) (completed : Bool)
    (rep ev : Option String) :
    ((∀ c ∈ st.commitments, ¬(c.id = cid ∧ c.ownerId = u)) →
      completeCommitment now st u cid completed rep ev
        = (st, .error errCompleteNotFound)) ∧
    (∀ c, st.commitments.find? (fun x => x.id == cid && x.ownerId == u) = some c →
      c.status ≠ "pending" →
      completeCommitment now st u cid completed rep ev
        = (st, .error errAlreadyResolved)) := by
  constructor
  · intro hno
    have hf : st.commitments.find? (fun x => x.id == cid && x.ownerId == u) = none := by
      rw [List.find?_eq_none]
      intro x hx
      simp only [Bool.and_eq_true, beq_iff_eq]
      exact fun hcon => hno x hx ⟨hcon.1, hcon.2⟩
    simp only [completeCommitment, hf]
  · intro c hf hst
    simp only [completeCommitment, hf]
    rw [if_pos hst]

theorem resolution_error_modes_witness :
    completeCommitment 0 stRes 2 1 true none none
      = (stRes, .error errCompleteNotFound) ∧
    completeCommitment 7 stDou2 1 1 true none none
      = (stDou2, .error errAlreadyResolved) := by
  refine ⟨?_, ?_⟩
  · exact (resolution_error_modes 0 stRes 2 1 true none none).1 (by decide)
  · exact (resolution_error_modes 7 stDou2 1 1 true none none).2 cDou2 (by decide)
      (by decide)

/-- A commitment (owner 1) with one resolved wager and stored context and
coaching messages, for the deletion-guard runs. -/
def cDel : Commitment :=
  { id := 1, publicId := "DELWIT01", ownerId := 1, title := "del",
    description := none, category := "personal", deadline := 100,
    visibility := "public", status := "pending", completionReport := none,
    evidenceUrl := none, completedAt := none }

def betDel : Bet :=
  { id := 1, commitmentId := 1, bettorId := 2, direction := "will_fail",
    amount := 50, resolved := true, payout := some (-50) }

def stDel : St :=
  { commitments := [cDel], bets := [betDel], balances := [(1, 500), (2, 450)],
    contextMessages := [⟨1, "ai", "q1"⟩], coachingMessages := [⟨1, "ai", "nice"⟩],
    nextBetId := 2 }

/-- C7 as stated is false: when user 2 (not the owner) deletes commitment 1,
`delete_commitment` returns the same 404 response as for a nonexistent id
(status 404, not a Forbidden 403) - the ownership failure is folded into
NotFound, as the response text itself says. -/
theorem deletion_guard_counterexample :
    deleteCommitment stDel 2 1 = (stDel, .error errDeleteCommitmentNotFound) ∧
    deleteCommitment stDel 2 999 = (stDel, .error errDeleteCommitmentNotFound) ∧
    errDeleteCommitmentNotFound.status = 404 ∧
    errDeleteCommitmentNotFound.status ≠ 403 := by
  refine ⟨?_, ?_, rfl, by decide⟩
  · simp only [deleteCommitment]
    rw [show stDel.commitments.find? (fun c => c.id == 1 && c.ownerId == 2) = none
      from by decide]
  · simp only [deleteCommitment]
    rw [show stDel.commitments.find? (fun c => c.id == 999 && c.ownerId == 2) = none
      from by decide]

/-- C7 (amended): deletion fails with the single conflated NotFound error
(404, "Commitment not found or you do not have permission to delete it")
when the commitment does not exist or the actor is not the owner; for the
owner it always fails with the deletion-guard error (400 "Cannot delete
commitment with existing bets") when at least one wager - resolved or not -
references the commitment; on success it also deletes the commitment's
context messages and coaching messages. -/
theorem deletion_guard (st : St) (u cid : Nat) :
    ((∀ c ∈ st.commitments, ¬(c.id = cid ∧ c.ownerId = u)) →
      deleteCommitment st u cid = (st, .error errDeleteCommitmentNotFound)) ∧
    (∀ c, st.commitments.find? (fun x => x.id == cid && x.ownerId == u) = some c →
      ((∃ b ∈ st.bets, b.commitmentId = cid) →
        deleteCommitment st u cid = (st, .error errHasBets)) ∧
      ((∀ b ∈ st.bets, b.commitmentId ≠ cid) →
        (deleteCommitment st u cid).2 = .ok () ∧
        (deleteCommitment st u cid).1.contextMessages
          = st.contextMessages.filter (fun m => m.commitmentId != cid) ∧
        (deleteCommitment st u cid).1.coachingMessages
          = st.coachingMessages.filter (fun m => m.commitmentId != cid) ∧
        (deleteCommitment st u cid).1.commitments
          = st.commitments.eraseP (fun c => c.id == cid && c.ownerId == u) ∧
        (deleteCommitment st u cid).1.bets = st.bets ∧
        (deleteCommitment st u cid).1.balances = st.balances)) := by
  constructor
  · intro hno
    have hf : st.commitments.find? (fun x => x.id == cid && x.ownerId == u) = none := by
      rw [List.find?_eq_none]
      intro x hx
      simp only [Bool.and_eq_true, beq_iff_eq]
      exact fun hcon => hno x hx ⟨hcon.1, hcon.2⟩
    simp only [deleteCommitment, hf]
  · intro c hf
    constructor
    · intro ⟨b, hb, hbc⟩
      simp only [deleteCommitment, hf]
      rw [if_pos]
      apply List.length_pos.mpr
      intro hnil
      have : b ∈ st.bets.filter (fun x => x.commitmentId == cid) := by
        rw [List.mem_filter]
        exact ⟨hb, by simp [hbc]⟩
      rw [hnil] at this
      simp at this
    · intro hnone
      simp only [deleteCommitment, hf]
      rw [if_neg]
      · exact ⟨by trivial, by trivial, by trivial, by trivial, by trivial, by trivial⟩
      · rw [not_lt, Nat.le_zero, List.length_eq_zero]
        rw [List.filter_eq_nil]
        intro b hb
        simp [hnone b hb]

/-- `stDel` with no bets, so deletion can succeed. -/
def stDel2 : St := { stDel with bets := [] }

theorem deletion_guard_witness :
    deleteCommitment stDel 1 1 = (stDel, .error errHasBets) ∧
    (deleteCommitment (stDel2) 1 1).2 = .ok () ∧
    (deleteCommitment (stDel2) 1 1).1.contextMessages = [] ∧
    (deleteCommitment (stDel2) 1 1).1.coachingMessages = [] := by
  have h := deletion_guard stDel 1 1
  have h2 := deletion_guard stDel2 1 1
  have hf : stDel.commitments.find? (fun x => x.id == 1 && x.ownerId == 1)
      = some cDel := by decide
  have hf2 : stDel2.commitments.find? (fun x => x.id == 1 && x.ownerId == 1)
      = some cDel := by decide
  have hsucc := (h2.2 cDel hf2).2 (by decide)
  exact ⟨(h.2 cDel hf).1 ⟨betDel, by decide, rfl⟩, hsucc.1,
    hsucc.2.1.trans (by decide), hsucc.2.2.1.trans (by decide)⟩

/-! ## Missing balance rows -/

/-- C8: a winning unresolved wager whose bettor has no balance row is still
marked resolved with its full computed payout, but no credit is applied
anywhere (the bettor still has no row afterwards); likewise `delete_bet` for
a bettor with no balance row deletes the wager without crediting any refund,
leaving the balance table unchanged. -/
theorem missing_balance_row (c : Commitment) (bets : List Bet)
    (bal : List (Nat × Int)) (b : Bet) (st : St) (u bid : Nat) :
    (b ∈ bets → b.commitmentId = c.id → b.resolved = false →
      isWinner (c.status == "completed") b = true →
      lookupBalance bal b.bettorId = none →
      settled b (winPayout (stakesOf c bets) (potOf c bets) b.amount)
          ∈ (resolveBets c bets bal).1 ∧
      lookupBalance (resolveBets c bets bal).2 b.bettorId = none) ∧
    (∀ b2, st.bets.find? (fun x => x.id == bid) = some b2 → b2.bettorId = u →
      b2.resolved = false →
      (∀ c2, lookupCommitment st b2.commitmentId = some c2 → c2.status = "pending") →
      lookupBalance st.balances u = none →
      (deleteBet st u bid).2 = .ok () ∧
      (deleteBet st u bid).1.balances = st.balances ∧
      (deleteBet st u bid).1.bets = st.bets.eraseP (fun x => x.id == bid)) := by
  constructor
  · intro hb hcid hres hwin hnone
    constructor
    · rw [resolveBets_fst]
      have : settleBet (c.status == "completed") c.id (stakesOf c bets) (potOf c bets) b
          = settled b (winPayout (stakesOf c bets) (potOf c bets) b.amount) := by
        unfold settleBet settled
        rw [if_pos (by simp [hcid, hres]), if_pos hwin]
      rw [← this]
      exact List.mem_map_of_mem _ hb
    · rw [resolveBets_snd, lookupBalance_foldl_credit, hnone]
      rfl
  · intro b2 hf hbettor hres hpend hnone
    simp only [deleteBet, hf]
    rw [if_neg (by simp [hbettor]), if_neg (by simp [hres])]
    rw [← hbettor] at hnone
    cases hlc : lookupCommitment st b2.commitmentId with
    | none =>
      simp only [hlc, Bool.false_eq_true, if_false]
      refine ⟨by trivial, ?_, by trivial⟩
      rw [creditFirst_of_none _ _ _ hnone]
    | some c2 =>
      simp only [hlc]
      rw [if_neg (by simp [bne_iff_ne, hpend c2 hlc])]
      refine ⟨by trivial, ?_, by trivial⟩
      rw [creditFirst_of_none _ _ _ hnone]

/-- A winning wager by user 7, who has no balance row. -/
def betNoRow : Bet :=
  { id := 1, commitmentId := 1, bettorId := 7, direction := "will_complete",
    amount := 100, resolved := false, payout := none }

def stNoRow : St :=
  { commitments := [cCan], bets := [betNoRow], balances := [],
    contextMessages := [], coachingMessages := [], nextBetId := 2 }

theorem missing_balance_row_witness :
    settled betNoRow 100 ∈ (resolveBets cPay [betNoRow] []).1 ∧
    lookupBalance (resolveBets cPay [betNoRow] []).2 7 = none ∧
    (deleteBet stNoRow 7 1).2 = .ok () ∧
    (deleteBet stNoRow 7 1).1.balances = [] ∧
    (deleteBet stNoRow 7 1).1.bets = [] := by
  have h := missing_balance_row cPay [betNoRow] [] betNoRow stNoRow 7 1
  have h1 := h.1 (by decide) (by decide) (by decide) (by decide) (by decide)
  have h2 := h.2 betNoRow (by decide) (by decide) (by decide)
    (fun c2 hc2 => by
      rw [show lookupCommitment stNoRow betNoRow.commitmentId = some cCan
        from by decide] at hc2
      cases hc2
      rfl)
    (by decide)
  have hpay : winPayout (stakesOf cPay [betNoRow]) (potOf cPay [betNoRow])
      betNoRow.amount = 100 := by
    have hs : stakesOf cPay [betNoRow] = 100 := by decide
    have hp : potOf cPay [betNoRow] = 0 := by decide
    rw [hs, hp, show betNoRow.amount = 100 from rfl]
    unfold winPayout pyInt
    norm_num
  rw [hpay] at h1
  exact ⟨h1.1, h1.2, h2.1, h2.2.1.trans rfl, h2.2.2.trans (by decide)⟩

/-! ## Heuristic probability -/

theorem rhe_ge_floor (q : ℚ) : ⌊q⌋ ≤ rhe q := by
  unfold rhe
  split_ifs <;> omega

theorem rhe_le_of_le (q : ℚ) (b : Int) (hq : q ≤ (b : ℚ)) : rhe q ≤ b := by
  have hfl : ⌊q⌋ ≤ b := (Int.floor_le_floor hq).trans_eq (Int.floor_intCast b)
  unfold rhe
  split_ifs with h1 h2 h3
  · exact hfl
  · have hq2 : (⌊q⌋ : ℚ) < (b : ℚ) := by
      have := Int.floor_le q
      linarith
    have : ⌊q⌋ < b := by exact_mod_cast hq2
    omega
  · exact hfl
  · have hq2 : (⌊q⌋ : ℚ) < (b : ℚ) := by
      have h1' : (1 : ℚ)/2 ≤ q - ⌊q⌋ := not_lt.mp h1
      linarith
    have : ⌊q⌋ < b := by exact_mod_cast hq2
    omega

theorem round3_bounds (q : ℚ) (h0 : 0 ≤ q) (h1 : q ≤ 1) :
    0 ≤ round3 q ∧ round3 q ≤ 1 := by
  unfold round3
  have hub : rhe (q * 1000) ≤ 1000 := by
    apply rhe_le_of_le
    push_cast
    linarith
  have hlb : (0 : Int) ≤ rhe (q * 1000) := by
    have hgf := rhe_ge_floor (q * 1000)
    have h2 : (0 : Int) ≤ ⌊q * 1000⌋ := Int.floor_nonneg.mpr (by positivity)
    omega
  constructor
  · apply div_nonneg
    · exact_mod_cast hlb
    · norm_num
  · rw [div_le_one (by norm_num)]
    exact_mod_cast hub

/-- C9: the heuristic probability returns exactly 1 when
`hoursRequired ≤ 0`, agrees exactly with the specification's formula
(clamped combination of ratio, time, friend and history factors, rounded to
3 decimals), and always lies in `[0, 1]`.  It is a pure function of its five
arguments, hence deterministic. -/
theorem heuristic_probability_correct (hr ha : ℚ) (d : Int) (fs sr : ℚ) :
    (hr ≤ 0 → compute_heuristic_probability hr ha d fs sr = 1) ∧
    compute_heuristic_probability hr ha d fs sr
      = heuristicProbabilitySpec hr ha d fs sr ∧
    0 ≤ compute_heuristic_probability hr ha d fs sr ∧
    compute_heuristic_probability hr ha d fs sr ≤ 1 := by
  refine ⟨?_, rfl, ?_, ?_⟩
  · intro h
    unfold compute_heuristic_probability
    rw [if_pos h]
  · unfold compute_heuristic_probability
    split_ifs with h
    · norm_num
    · exact (round3_bounds _ (le_max_left _ _)
        (max_le (by norm_num) (min_le_right _ _))).1
  · unfold compute_heuristic_probability
    split_ifs with h
    · norm_num
    · exact (round3_bounds _ (le_max_left _ _)
        (max_le (by norm_num) (min_le_right _ _))).2

theorem heuristic_probability_correct_witness :
    compute_heuristic_probability 0 5 7 0 (1/2) = 1 ∧
    0 ≤ compute_heuristic_probability 1 1 14 0 (1/2) := by
  exact ⟨(heuristic_probability_correct 0 5 7 0 (1/2)).1 (le_refl 0),
    (heuristic_probability_correct 1 1 14 0 (1/2)).2.2.1⟩

/-! ## Question-generation boundary -/

/-- C10 as stated is false: the `except` fallback of
`generate_questions_for_commitment` has 5 questions, not 3, and a parsed
JSON list shorter than 3 items (even empty) is returned as-is, violating the
claimed 3-to-7 length guarantee. -/
theorem questions_fallback_counterexample :
    (generateQuestionsForCommitment .failure).length = 5 ∧
    generateQuestionsForCommitment (.parsedList []) = [] := ⟨rfl, rfl⟩

/-- C10 (amended): the question-generation boundary never raises: every
adapter outcome yields a returned list.  On adapter failure (an exception
from the chat call or the JSON parse) it returns the fixed fallback list of
exactly 5 generic questions; when the response parses to JSON that is not a
list it returns a fixed list of 3 questions; when it parses to a list, the
first at most 7 items are returned, with no lower bound on the length. -/
theorem questions_boundary (o : QuestionsOutcome) :
    (o = .failure → generateQuestionsForCommitment o = fallbackQuestions ∧
      (generateQuestionsForCommitment o).length = 5) ∧
    (o = .parsedNonList → generateQuestionsForCommitment o = nonListQuestions ∧
      (generateQuestionsForCommitment o).length = 3) ∧
    (∀ qs, o = .parsedList qs → generateQuestionsForCommitment o = qs.take 7 ∧
      (generateQuestionsForCommitment o).length ≤ 7) := by
  refine ⟨?_, ?_, ?_⟩
  · rintro rfl
    exact ⟨rfl, rfl⟩
  · rintro rfl
    exact ⟨rfl, rfl⟩
  · rintro qs rfl
    refine ⟨rfl, ?_⟩
    simp only [generateQuestionsForCommitment, List.length_take]
    exact min_le_left _ _

theorem questions_boundary_witness :
    generateQuestionsForCommitment .failure = fallbackQuestions ∧
    (generateQuestionsForCommitment (.parsedList ["a", "b"])).length ≤ 7 := by
  exact ⟨((questions_boundary .failure).1 rfl).1,
    ((questions_boundary (.parsedList ["a", "b"])).2.2 ["a", "b"] rfl).2⟩
